import Mathlib

/-!
# Discovery v4 wire codec and the hybrid signature contract

A shallow embedding of `p2p/discover/v4wire/v4wire.go`, `crypto/hybrid/hybridsig.go` and
the wrappers of `p2p/discover/node.go`.

Conventions of the embedding:

* a Go `[]byte` is a `List (Fin 256)`; the nil slice and the empty slice are both `[]`,
  except where the source tests a slice against `nil`, where the argument is an `Option`,
  and where the source writes through a slice (`Zeroize`), where slices point into a memory
  of backing arrays;
* a Go function that can hit a run-time panic (index or slice bounds) returns
  `Except Panic _`; a function returning `(value, error)` whose value is the zero value on
  error returns `Except Err _`;
* Go `int` values that are lengths of slices or the declared key lengths are far below
  `2^63`, so `int` arithmetic is arithmetic in `Int`;
* code of the repository that lives outside the embedded files (the hash, the signature
  primitive, the two-part framer, the structural encoder) is a field of `Collaborators`.
-/

namespace DP

/-- One octet. -/
abbrev Byte := Fin 256

/-- A Go byte slice. -/
abbrev Bytes := List Byte

/-- Run-time panics reachable from the embedded code: the two bounds checks of the Go runtime
and the explicit `panic("keygen basic check failed")` of `GenerateKey`. -/
inductive Panic where
  | indexOutOfRange
  | sliceBoundsOutOfRange
  | keygenBasicCheckFailed
  deriving DecidableEq, Repr

/-- Error values. The first three are the package variables of `v4wire`; `unknownType` is the
`fmt.Errorf("unknown type: %d", ptype)` of `Decode`; the next two are package variables of
`hybrid`; the two after them are the `errors.New` values of `CombinePublicKeySignature`;
`external` is an error value created by a collaborator package (`common`, `rlp`, the signature
primitive); `wrongSizePublicKeyData` is the `errors.New` value of `HybridSig.DecodePublicKey`
and `allZeroPublicKey` the one of `v4wire.DecodePubkey`; `keyFileTooShort` is the
`fmt.Errorf` of `LoadPrivateKeyFromFile`, `invalidCharacterAtEnd` and `keyFileTooLong` are the
two errors of `checkKeyFileEnd`; `hexInvalidByte` and `hexErrLength` are `InvalidByteError` and
`ErrLength` of the Go package `encoding/hex`; `ErrInvalidKey` is the `InvalidKeyError` the
specification gives for an all-zero public key. -/
inductive Err where
  | ErrPacketTooSmall
  | ErrBadHash
  | ErrBadPoint
  | unknownType (ptype : Byte)
  | ErrInvalidPrivateKeyLen
  | ErrInvalidPublicKeyLen
  | invalidSignatureLength
  | invalidPublicKeyLength
  | external (code : Nat)
  | wrongSizePublicKeyData
  | allZeroPublicKey
  | keyFileTooShort
  | invalidCharacterAtEnd (b : Byte)
  | keyFileTooLong
  | hexInvalidByte (b : Byte)
  | hexErrLength
  | ErrInvalidKey
  deriving DecidableEq, Repr

/-! ## Data model of `v4wire.go` -/

/-- The wire form of a public key, `type Pubkey struct { PubBytes []byte }`. -/
structure Pubkey where
  PubBytes : Bytes
  deriving DecidableEq, Repr

/-- The struct `Endpoint`: `IP net.IP`, `UDP uint16`, `TCP uint16`. -/
structure Endpoint where
  IP : Bytes
  UDP : Nat
  TCP : Nat
  deriving DecidableEq, Repr

/-- The struct `Node`. -/
structure Node where
  IP : Bytes
  UDP : Nat
  TCP : Nat
  ID : Pubkey
  deriving DecidableEq, Repr

/-- Modelled from the spec: `enr.Record` is declared in package `enr`, outside the embedded
files ("external format, not specified here"); it is carried as its raw bytes. -/
structure Record where
  raw : Bytes
  deriving DecidableEq, Repr

/-- The struct `Ping`. `Rest` is `[]rlp.RawValue`, a list of byte strings. -/
structure Ping where
  Version : Nat
  From : Endpoint
  To : Endpoint
  Expiration : Nat
  ENRSeq : Nat
  Rest : List Bytes
  deriving DecidableEq, Repr

/-- The struct `Pong`. -/
structure Pong where
  To : Endpoint
  ReplyTok : Bytes
  Expiration : Nat
  ENRSeq : Nat
  Rest : List Bytes
  deriving DecidableEq, Repr

/-- The struct `Findnode`. -/
structure Findnode where
  Target : Pubkey
  Expiration : Nat
  Rest : List Bytes
  deriving DecidableEq, Repr

/-- The struct `Neighbors`. -/
structure Neighbors where
  Nodes : List Node
  Expiration : Nat
  Rest : List Bytes
  deriving DecidableEq, Repr

/-- The struct `ENRRequest`. -/
structure ENRRequest where
  Expiration : Nat
  Rest : List Bytes
  deriving DecidableEq, Repr

/-- The struct `ENRResponse`. -/
structure ENRResponse where
  ReplyTok : Bytes
  Record : Record
  Rest : List Bytes
  deriving DecidableEq, Repr

/-- The interface `Packet`: a pointer to one of the six request structs. -/
inductive Packet where
  | ping (p : Ping)
  | pong (p : Pong)
  | findnode (p : Findnode)
  | neighbors (p : Neighbors)
  | enrRequest (p : ENRRequest)
  | enrResponse (p : ENRResponse)
  deriving DecidableEq, Repr

/-- The constant `PingPacket = iota + 1`. -/
def PingPacket : Byte := 1
/-- The constant `PongPacket`. -/
def PongPacket : Byte := 2
/-- The constant `FindnodePacket`. -/
def FindnodePacket : Byte := 3
/-- The constant `NeighborsPacket`. -/
def NeighborsPacket : Byte := 4
/-- The constant `ENRRequestPacket`. -/
def ENRRequestPacket : Byte := 5
/-- The constant `ENRResponsePacket`. -/
def ENRResponsePacket : Byte := 6

/-- The six `Kind()` methods. -/
def Packet.Kind : Packet → Byte
  | .ping _ => PingPacket
  | .pong _ => PongPacket
  | .findnode _ => FindnodePacket
  | .neighbors _ => NeighborsPacket
  | .enrRequest _ => ENRRequestPacket
  | .enrResponse _ => ENRResponsePacket

/-- The constant `macSize`. -/
def macSize : Int := 32

/-! ## Keys (`signaturealgorithm.PublicKey`, `signaturealgorithm.PrivateKey`) -/

/-- The struct `signaturealgorithm.PublicKey`, used by the source through its field
`PubData`. -/
structure PublicKey where
  PubData : Bytes
  deriving DecidableEq, Repr

/-- The struct `signaturealgorithm.PrivateKey`, used by the source through its fields
`PriData` and the embedded `PublicKey`. -/
structure PrivateKey where
  PriData : Bytes
  PublicKey : PublicKey
  deriving DecidableEq, Repr

/-! ## Collaborators -/

/-- The code the embedded files call but do not contain: the constants of package `hybrid`
and `common`, `crypto.Keccak256`, the primitive `hybrid.Sign(seckey, digest)` and
`hybrid.Verify(digest, sig, pub)` (whose result `none` is the nil error),
`common.CombineTwoParts`, `common.ExtractTwoParts`, `rlp.Encode`, and `rlp.Stream.Decode` at
each of the six request types (it fills the struct it is handed and returns an error or
nil); the primitive `hybrid.GenerateKey()` as a function of the state of the random source,
returning `(pubKey, priKey)`; `hybrid.PrivateAndPublicFromPrivateKey`, returning
`(privKeyBytes, pubKeyBytes)`; the address type of package `common`, as its length and
the conversion `common.BytesToAddress`; and `crypto.Keccak256Hash`, whose result (a
`common.Hash`, converted to `enode.ID` by the callers) is carried as its bytes. -/
structure Collaborators where
  SIG_NAME : String
  CRYPTO_PUBLICKEY_BYTES : Nat
  CRYPTO_SECRETKEY_BYTES : Nat
  CRYPTO_SIGNATURE_BYTES : Nat
  LengthByteSize : Nat
  Keccak256 : Bytes → Bytes
  primSign : Bytes → Bytes → Except Err Bytes
  primVerify : Bytes → Bytes → Bytes → Option Err
  CombineTwoParts : Bytes → Bytes → Bytes
  ExtractTwoParts : Bytes → Except Err (Bytes × Bytes)
  rlpEncode : Packet → Except Err Bytes
  rlpDecodePing : Bytes → Ping × Option Err
  rlpDecodePong : Bytes → Pong × Option Err
  rlpDecodeFindnode : Bytes → Findnode × Option Err
  rlpDecodeNeighbors : Bytes → Neighbors × Option Err
  rlpDecodeENRRequest : Bytes → ENRRequest × Option Err
  rlpDecodeENRResponse : Bytes → ENRResponse × Option Err
  primGenerateKey : Nat → Except Err (Bytes × Bytes)
  PrivateAndPublicFromPrivateKey : Bytes → Except Err (Bytes × Bytes)
  AddressLength : Nat
  BytesToAddress : Bytes → Bytes
  Keccak256Hash : Bytes → Bytes

deriving instance DecidableEq for Except

/-- The slice expression `b[lo:hi]`; the run-time check is `0 ≤ lo ≤ hi ≤ len(b)` (the
capacity of a datagram buffer is taken to be its length). -/
def slice (b : Bytes) (lo hi : Int) : Except Panic Bytes :=
  if 0 ≤ lo ∧ lo ≤ hi ∧ hi ≤ (b.length : Int) then
    .ok ((b.take hi.toNat).drop lo.toNat)
  else
    .error .sliceBoundsOutOfRange

/-- The index expression `b[i]`. -/
def index (b : Bytes) (i : Nat) : Except Panic Byte :=
  match b.get? i with
  | some x => .ok x
  | none => .error .indexOutOfRange

/-- The pair `buf := make([]byte, n); copy(buf, src)`: the first `n` bytes of `src`, padded
with zero bytes up to length `n`. -/
def makeCopy (n : Nat) (src : Bytes) : Bytes :=
  src.take n ++ List.replicate (n - src.length) 0

/-! ## `hybridsig.go` -/

/-- The struct `HybridSig`. -/
structure HybridSig where
  sigName : String
  publicKeyBytesIndexStart : Nat
  publicKeyLength : Nat
  privateKeyLength : Nat
  signatureLength : Nat
  signatureWithPublicKeyLength : Nat
  deriving DecidableEq, Repr

/-- The constructor `CreateHybridSig`. -/
def CreateHybridSig (E : Collaborators) : HybridSig :=
  { sigName := E.SIG_NAME
    publicKeyBytesIndexStart := 12
    publicKeyLength := E.CRYPTO_PUBLICKEY_BYTES
    privateKeyLength := E.CRYPTO_SECRETKEY_BYTES
    signatureLength := E.CRYPTO_SIGNATURE_BYTES
    signatureWithPublicKeyLength :=
      E.CRYPTO_PUBLICKEY_BYTES + E.CRYPTO_SIGNATURE_BYTES + E.LengthByteSize + E.LengthByteSize }

/-- The method `PublicKeyLength`. -/
def HybridSig.PublicKeyLength (s : HybridSig) : Nat := s.publicKeyLength

/-- The method `PrivateKeyLength`. -/
def HybridSig.PrivateKeyLength (s : HybridSig) : Nat := s.privateKeyLength

/-- The method `SignatureLength`. -/
def HybridSig.SignatureLength (s : HybridSig) : Nat := s.signatureLength

/-- The method `SignatureWithPublicKeyLength`. -/
def HybridSig.SignatureWithPublicKeyLength (s : HybridSig) : Nat :=
  s.signatureWithPublicKeyLength

/-- The method `exportPrivateKey`. -/
def HybridSig.exportPrivateKey (s : HybridSig) (privy : PrivateKey) : Except Err Bytes :=
  if privy.PriData.length ≠ s.privateKeyLength then
    .error .ErrInvalidPrivateKeyLen
  else
    .ok (makeCopy s.privateKeyLength privy.PriData)

/-- The method `exportPublicKey`. -/
def HybridSig.exportPublicKey (s : HybridSig) (pub : PublicKey) : Except Err Bytes :=
  if pub.PubData.length ≠ s.publicKeyLength then
    .error .ErrInvalidPublicKeyLen
  else
    .ok (makeCopy s.publicKeyLength pub.PubData)

/-- The method `SerializePublicKey`. -/
def HybridSig.SerializePublicKey (s : HybridSig) (pub : PublicKey) : Except Err Bytes :=
  s.exportPublicKey pub

/-- The method `Sign`: export the secret key, sign with the primitive, serialize the public
key, and frame the two with `common.CombineTwoParts`. -/
def HybridSig.Sign (E : Collaborators) (s : HybridSig) (digestHash : Bytes)
    (prv : PrivateKey) : Except Err Bytes :=
  match s.exportPrivateKey prv with
  | .error e => .error e
  | .ok seckey =>
    match E.primSign seckey digestHash with
    | .error e => .error e
    | .ok sigBytes =>
      match s.SerializePublicKey prv.PublicKey with
      | .error e => .error e
      | .ok pubBytes => .ok (E.CombineTwoParts sigBytes pubBytes)

/-- The method `PublicKeyAndSignatureFromCombinedSignature`. The digest is an `Option`
because the source tests it against `nil`: `none` is the nil slice. -/
def HybridSig.PublicKeyAndSignatureFromCombinedSignature (E : Collaborators) (_s : HybridSig)
    (digestHash : Option Bytes) (sig : Bytes) : Except Err (Bytes × Bytes) :=
  match E.ExtractTwoParts sig with
  | .error e => .error e
  | .ok (signature, pubKey) =>
    match digestHash with
    | some d =>
      match E.primVerify d signature pubKey with
      | some e => .error e
      | none => .ok (signature, pubKey)
    | none => .ok (signature, pubKey)

/-- The method `PublicKeyBytesFromSignature`. -/
def HybridSig.PublicKeyBytesFromSignature (E : Collaborators) (_s : HybridSig)
    (digestHash : Bytes) (sig : Bytes) : Except Err Bytes :=
  match E.ExtractTwoParts sig with
  | .error e => .error e
  | .ok (sigBytes, pubKeyBytes) =>
    match E.primVerify digestHash sigBytes pubKeyBytes with
    | some e => .error e
    | none => .ok pubKeyBytes

/-- The method `convertBytesToPrivate`; the embedded public key of the new key is the zero
value. -/
def HybridSig.convertBytesToPrivate (s : HybridSig) (privy : Bytes) : Except Err PrivateKey :=
  if privy.length ≠ s.privateKeyLength then
    .error .ErrInvalidPrivateKeyLen
  else
    .ok ⟨makeCopy s.privateKeyLength privy, ⟨[]⟩⟩

/-- The method `convertBytesToPublic`. -/
def HybridSig.convertBytesToPublic (s : HybridSig) (pub : Bytes) : Except Err PublicKey :=
  if pub.length ≠ s.publicKeyLength then
    .error .ErrInvalidPublicKeyLen
  else
    .ok ⟨makeCopy s.publicKeyLength pub⟩

/-- The method `GenerateKey`; `seed` is the state of the random source the primitive draws
from. The outer result is the explicit panic on a length mismatch, the inner one the error of
the primitive. -/
def HybridSig.GenerateKey (E : Collaborators) (s : HybridSig) (seed : Nat) :
    Except Panic (Except Err PrivateKey) :=
  match E.primGenerateKey seed with
  | .error e => .ok (.error e)
  | .ok (pubKey, priKey) =>
    if pubKey.length ≠ s.publicKeyLength ∨ priKey.length ≠ s.privateKeyLength then
      .error .keygenBasicCheckFailed
    else
      .ok (.ok ⟨makeCopy priKey.length priKey, ⟨makeCopy pubKey.length pubKey⟩⟩)

/-- The method `SerializePrivateKey`. -/
def HybridSig.SerializePrivateKey (s : HybridSig) (priv : PrivateKey) : Except Err Bytes :=
  match s.exportPrivateKey priv with
  | .error e => .error e
  | .ok priBytes => .ok priBytes

/-- The method `DeserializePrivateKey`. -/
def HybridSig.DeserializePrivateKey (E : Collaborators) (s : HybridSig) (priv : Bytes) :
    Except Err PrivateKey :=
  match E.PrivateAndPublicFromPrivateKey priv with
  | .error e => .error e
  | .ok (privKeyBytes, pubKeyBytes) =>
    match s.convertBytesToPrivate privKeyBytes with
    | .error e => .error e
    | .ok privKey =>
      match s.convertBytesToPublic pubKeyBytes with
      | .error e => .error e
      | .ok pubkey => .ok { privKey with PublicKey := pubkey }

/-- The method `DeserializePublicKey`. -/
def HybridSig.DeserializePublicKey (s : HybridSig) (pub : Bytes) : Except Err PublicKey :=
  s.convertBytesToPublic pub

/-- The zero value `common.Address{}`. -/
def zeroAddress (E : Collaborators) : Bytes := List.replicate E.AddressLength 0

/-- The method `PublicKeyToAddress`; the result is `(address, error)`, the address being its
bytes. The expression `crypto.Keccak256(pubBytes[:])[s.publicKeyBytesIndexStart:]` is a slice
expression on the hash. -/
def HybridSig.PublicKeyToAddress (E : Collaborators) (s : HybridSig) (p : PublicKey) :
    Except Panic (Bytes × Option Err) :=
  match s.SerializePublicKey p with
  | .error e => .ok (zeroAddress E, some e)
  | .ok pubBytes =>
    match slice (E.Keccak256 pubBytes) s.publicKeyBytesIndexStart
        (E.Keccak256 pubBytes).length with
    | .error q => .error q
    | .ok tail => .ok (E.BytesToAddress tail, none)

/-- The method `Verify`. -/
def HybridSig.Verify (E : Collaborators) (_s : HybridSig) (pubKey digestHash signature : Bytes) :
    Bool :=
  match E.ExtractTwoParts signature with
  | .error _ => false
  | .ok (sigBytes, pubKeyBytes) =>
    if pubKey ≠ pubKeyBytes then false
    else
      match E.primVerify digestHash sigBytes pubKey with
      | none => true
      | some _ => false

/-- The digits of `big.Int.Bytes()`, most significant first, pushed in front of `acc`; `fuel`
bounds the number of digits. -/
def bigBytesAux : Nat → Nat → Bytes → Bytes
  | 0, _, acc => acc
  | fuel + 1, n, acc =>
    if n = 0 then acc
    else bigBytesAux fuel (n / 256) (⟨n % 256, Nat.mod_lt _ (by decide)⟩ :: acc)

/-- The method `Bytes()` of `math/big.Int` on a non-negative value: the big-endian bytes
without leading zeros, empty for zero. -/
def bigBytes (n : Nat) : Bytes := bigBytesAux n n []

/-- The method `ValidateSignatureValues`; the two diagnostic prints have no effect on the
result. -/
def HybridSig.ValidateSignatureValues (osig : HybridSig) (v : Byte) (r s : Nat)
    (_homestead : Bool) : Bool :=
  if v = 0 ∨ v = 1 then
    if (bigBytes r).length ≠ osig.PublicKeyLength then false
    else if (bigBytes s).length < osig.SignatureLength then false
    else true
  else false

/-! ### Slices in memory, as `Zeroize` writes them

`Zeroize` assigns through a slice, so its effect is on the backing array and is seen by every
slice that shares it. -/

/-- A Go slice value: the backing array it points into, the offset of its first element in
that array, and its length. -/
structure SliceRef where
  arr : Nat
  off : Nat
  len : Nat
  deriving DecidableEq, Repr

/-- The memory: the content of every backing array. -/
abbrev Memory := Nat → Bytes

/-- The bytes a slice shows in a memory. -/
def SliceRef.bytes (m : Memory) (b : SliceRef) : Bytes :=
  ((m b.arr).drop b.off).take b.len

/-- The assignment `b[i] = v`, for `i < len(b)`. -/
def SliceRef.store (m : Memory) (b : SliceRef) (i : Nat) (v : Byte) : Memory :=
  fun a => if a = b.arr then (m a).set (b.off + i) v else m a

/-- A `*signaturealgorithm.PrivateKey` in memory: the slice `PriData` and the slice `PubData`
of the embedded public key. -/
structure PrivateKeyRef where
  PriData : SliceRef
  PubData : SliceRef
  deriving DecidableEq, Repr

/-- The key a `PrivateKeyRef` shows in a memory. -/
def PrivateKeyRef.value (m : Memory) (k : PrivateKeyRef) : PrivateKey :=
  ⟨k.PriData.bytes m, ⟨k.PubData.bytes m⟩⟩

/-- The method `Zeroize`: `b := prv.PriData` and the loop `for i := range b { b[i] = 0 }`; the
result is the memory after the call. -/
def HybridSig.Zeroize (_s : HybridSig) (m : Memory) (prv : PrivateKeyRef) : Memory :=
  (List.range prv.PriData.len).foldl (fun m i => prv.PriData.store m i 0) m

/-- The method `DecodePublicKey`. -/
def HybridSig.DecodePublicKey (s : HybridSig) (encoded : Bytes) : Except Err PublicKey :=
  if encoded.length ≠ s.publicKeyLength then
    .error .wrongSizePublicKeyData
  else
    .ok ⟨makeCopy s.publicKeyLength encoded⟩

/-- The method `EncodePublicKey`: a buffer of the declared length with the key bytes copied
into it. -/
def HybridSig.EncodePublicKey (s : HybridSig) (pubKey : PublicKey) : Bytes :=
  makeCopy s.publicKeyLength pubKey.PubData

/-- The method `CombinePublicKeySignature`. -/
def HybridSig.CombinePublicKeySignature (E : Collaborators) (s : HybridSig)
    (sigBytes pubKeyBytes : Bytes) : Except Err Bytes :=
  if sigBytes.length < s.signatureLength then
    .error .invalidSignatureLength
  else if pubKeyBytes.length ≠ s.publicKeyLength then
    .error .invalidPublicKeyLength
  else
    .ok (E.CombineTwoParts sigBytes pubKeyBytes)

/-- The table `reverseHexTable` of the Go package `encoding/hex`: the value of a hexadecimal
digit, `none` for any other byte. -/
def fromHexChar (c : Byte) : Option Nat :=
  if 48 ≤ c.val ∧ c.val ≤ 57 then some (c.val - 48)
  else if 97 ≤ c.val ∧ c.val ≤ 102 then some (c.val - 97 + 10)
  else if 65 ≤ c.val ∧ c.val ≤ 70 then some (c.val - 65 + 10)
  else none

/-- The function `hex.DecodeString` of the Go package `encoding/hex`, as far as its callers
use it (they drop the partial output on error): pairs of digits from the left, the first
invalid byte reported, then the odd length. -/
def hexDecodeString : Bytes → Except Err Bytes
  | [] => .ok []
  | [p] =>
    match fromHexChar p with
    | none => .error (.hexInvalidByte p)
    | some _ => .error .hexErrLength
  | p :: q :: rest =>
    match fromHexChar p with
    | none => .error (.hexInvalidByte p)
    | some a =>
      match fromHexChar q with
      | none => .error (.hexInvalidByte q)
      | some b =>
        match hexDecodeString rest with
        | .error e => .error e
        | .ok out => .ok (⟨(a * 16 + b) % 256, Nat.mod_lt _ (by decide)⟩ :: out)

/-- The method `HexToPrivateKey`; the string is carried as its bytes. After the first test of
`err` the remaining tests of the source are unreachable. -/
def HybridSig.HexToPrivateKey (E : Collaborators) (s : HybridSig) (hexkey : Bytes) :
    Except Err PrivateKey :=
  match hexDecodeString hexkey with
  | .error e => .error e
  | .ok b => s.DeserializePrivateKey E b

/-- The loop of `readASCII` with `fuel = len(buf) - n` rounds left; the reader is the list of
bytes not yet read, and `ReadByte` on the empty list is `io.EOF`. The result is `n`, the
buffer and the reader; the returned error is always nil. -/
def readASCIILoop : Nat → Bytes → Nat → Bytes → Nat × Bytes × Bytes
  | 0, buf, n, r => (n, buf, r)
  | fuel + 1, buf, n, r =>
    match r with
    | [] => (n, buf.set n 0, [])
    | b :: rest =>
      if b.val < 33 then (n, buf.set n b, rest)
      else readASCIILoop fuel (buf.set n b) (n + 1) rest

/-- The function `readASCII`. -/
def readASCII (buf r : Bytes) : Nat × Bytes × Bytes :=
  readASCIILoop buf.length buf 0 r

/-- The function `checkKeyFileEnd` from round `i` on; the result `none` is the nil error. -/
def checkKeyFileEndFrom : Nat → Bytes → Option Err
  | _, [] => none
  | i, b :: rest =>
    if b ≠ 10 ∧ b ≠ 13 then some (.invalidCharacterAtEnd b)
    else if i ≥ 2 then some .keyFileTooLong
    else checkKeyFileEndFrom (i + 1) rest

/-- The function `checkKeyFileEnd`. -/
def checkKeyFileEnd (r : Bytes) : Option Err := checkKeyFileEndFrom 0 r

/-- The framing stage of `LoadPrivateKeyFromFile` on a file given by its content: the buffer
of `2 * privateKeyLength` bytes filled by `readASCII`, the length test, `checkKeyFileEnd`; the
result is the buffer. -/
def HybridSig.keyFileFraming (s : HybridSig) (file : Bytes) : Except Err Bytes :=
  let buf : Bytes := List.replicate (s.privateKeyLength * 2) 0
  let res := readASCII buf file
  if res.1 ≠ buf.length then
    .error .keyFileTooShort
  else
    match checkKeyFileEnd res.2.2 with
    | some e => .error e
    | none => .ok res.2.1

/-- The method `LoadPrivateKeyFromFile` on a file that opens, given by its content. -/
def HybridSig.LoadPrivateKeyFromFile (E : Collaborators) (s : HybridSig) (file : Bytes) :
    Except Err PrivateKey :=
  match s.keyFileFraming file with
  | .error e => .error e
  | .ok buf => s.HexToPrivateKey E buf

/-- Modelled from the spec: the package variable `cryptobase.SigAlg` ("a global indirection
point selected at process start") is declared outside the embedded files; it holds the hybrid
scheme. -/
def SigAlg (E : Collaborators) : HybridSig := CreateHybridSig E

/-! ## `v4wire.go`: the codec -/

/-- The four results of `Decode`: `req` is `none` for the nil interface. -/
structure DecodeResult where
  req : Option Packet
  fromKey : Pubkey
  hash : Bytes
  err : Option Err
  deriving DecidableEq, Repr

/-- The function `recoverNodeKey`: on error the zero `Pubkey` and the error, otherwise a copy
of the recovered bytes and nil. -/
def recoverNodeKey (E : Collaborators) (hash sig : Bytes) : Pubkey × Option Err :=
  match (SigAlg E).PublicKeyBytesFromSignature E hash sig with
  | .error e => (⟨[]⟩, some e)
  | .ok pubkey => (⟨makeCopy pubkey.length pubkey⟩, none)

/-- The tail of `Decode` after key recovery: the switch on `sigdata[0]`, then the structural
decoding of `sigdata[1:]` into the allocated request. -/
def decodeDispatch (E : Collaborators) (fromKey : Pubkey) (hash sigdata : Bytes) :
    Except Panic DecodeResult :=
  match index sigdata 0 with
  | .error p => .error p
  | .ok ptype =>
    let finish (dec : Bytes → Packet × Option Err) : Except Panic DecodeResult :=
      match slice sigdata 1 sigdata.length with
      | .error p => .error p
      | .ok body => .ok ⟨some (dec body).1, fromKey, hash, (dec body).2⟩
    if ptype = PingPacket then
      finish (fun b => (.ping (E.rlpDecodePing b).1, (E.rlpDecodePing b).2))
    else if ptype = PongPacket then
      finish (fun b => (.pong (E.rlpDecodePong b).1, (E.rlpDecodePong b).2))
    else if ptype = FindnodePacket then
      finish (fun b => (.findnode (E.rlpDecodeFindnode b).1, (E.rlpDecodeFindnode b).2))
    else if ptype = NeighborsPacket then
      finish (fun b => (.neighbors (E.rlpDecodeNeighbors b).1, (E.rlpDecodeNeighbors b).2))
    else if ptype = ENRRequestPacket then
      finish (fun b => (.enrRequest (E.rlpDecodeENRRequest b).1, (E.rlpDecodeENRRequest b).2))
    else if ptype = ENRResponsePacket then
      finish (fun b => (.enrResponse (E.rlpDecodeENRResponse b).1, (E.rlpDecodeENRResponse b).2))
    else
      .ok ⟨none, fromKey, hash, some (.unknownType ptype)⟩

/-- The part of `Decode` after the four size guards: the three slices, the hash check, key
recovery and dispatch. -/
def decodeChecked (E : Collaborators) (input : Bytes) (inputSize headSize : Int) :
    Except Panic DecodeResult :=
  match slice input 0 macSize with
  | .error p => .error p
  | .ok hash =>
    match slice input macSize (inputSize - headSize) with
    | .error p => .error p
    | .ok sig =>
      match slice input (inputSize - headSize) inputSize with
      | .error p => .error p
      | .ok sigdata =>
        match slice input macSize inputSize with
        | .error p => .error p
        | .ok tail =>
          let shouldhash := E.Keccak256 tail
          if hash ≠ shouldhash then
            .ok ⟨none, ⟨[]⟩, [], some .ErrBadHash⟩
          else
            let digest := E.Keccak256 sigdata
            let (fromKey, err) := recoverNodeKey E digest sig
            match err with
            | some e => .ok ⟨none, fromKey, hash, some e⟩
            | none => decodeDispatch E fromKey hash sigdata

/-- The function `Decode`. -/
def Decode (E : Collaborators) (input : Bytes) : Except Panic DecodeResult :=
  let inputSize : Int := input.length
  if inputSize < macSize then
    .ok ⟨none, ⟨[]⟩, [], some .ErrPacketTooSmall⟩
  else
    let sigSize : Int := (SigAlg E).SignatureWithPublicKeyLength
    if sigSize > inputSize then
      .ok ⟨none, ⟨[]⟩, [], some .ErrPacketTooSmall⟩
    else
      let headSize := inputSize - sigSize - macSize
      if headSize < 0 ∨ headSize > inputSize then
        .ok ⟨none, ⟨[]⟩, [], some .ErrPacketTooSmall⟩
      else if inputSize < sigSize + macSize + headSize then
        .ok ⟨none, ⟨[]⟩, [], some .ErrPacketTooSmall⟩
      else
        decodeChecked E input inputSize headSize

/-- The function `Encode`; the result is `(packet, hash)`. -/
def Encode (E : Collaborators) (priv : PrivateKey) (req : Packet) :
    Except Err (Bytes × Bytes) :=
  match E.rlpEncode req with
  | .error e => .error e
  | .ok body =>
    let packetreq := req.Kind :: body
    let digest := E.Keccak256 packetreq
    match (SigAlg E).Sign E digest priv with
    | .error e => .error e
    | .ok sig =>
      let hash := E.Keccak256 (sig ++ packetreq)
      .ok (hash ++ (sig ++ packetreq), hash)

/-- The function `DecodePubkey`: count the zero bytes, reject when all are zero, otherwise
`SigAlg.DecodePublicKey`. -/
def DecodePubkey (E : Collaborators) (e : Pubkey) : Except Err PublicKey :=
  let keyBytes := e.PubBytes
  let count := keyBytes.foldl (fun c v => if v = 0 then c + 1 else c) 0
  if count = keyBytes.length then
    .error .allZeroPublicKey
  else
    (SigAlg E).DecodePublicKey keyBytes

/-- The function `EncodePubkey`: the zero `Pubkey` when serialization fails, otherwise a copy
of the serialized bytes. -/
def EncodePubkey (E : Collaborators) (key : PublicKey) : Pubkey :=
  match (SigAlg E).SerializePublicKey key with
  | .error _ => ⟨[]⟩
  | .ok pubBytes => ⟨makeCopy pubBytes.length pubBytes⟩

/-- The method `Pubkey.ID`. -/
def Pubkey.ID (E : Collaborators) (e : Pubkey) : Bytes :=
  E.Keccak256Hash e.PubBytes

/-! ### Time, as `Expired` uses it

The Go package `time` keeps an instant as a count of seconds since year 1 in an `int64`
(with wrap-around arithmetic) and a nanosecond part. -/

/-- The conversion of an integer to `int64`: its value modulo `2^64` in two's complement. -/
def wrapInt64 (x : Int) : Int := (x + 2 ^ 63) % 2 ^ 64 - 2 ^ 63

/-- The constant `unixToInternal` of package `time`: the seconds from year 1 to 1970. -/
def unixToInternal : Int := 62135596800

/-- A `time.Time` read on the wall clock: internal seconds and nanoseconds. -/
structure Time where
  sec : Int
  nsec : Nat
  deriving DecidableEq, Repr

/-- The function `time.Unix(sec, 0)`: it stores `sec + unixToInternal` in an `int64`. -/
def timeUnix (sec : Int) : Time := ⟨wrapInt64 (sec + unixToInternal), 0⟩

/-- The method `Before` on wall-clock readings. -/
def Time.Before (t u : Time) : Bool :=
  decide (t.sec < u.sec ∨ (t.sec = u.sec ∧ t.nsec < u.nsec))

/-- The instant `time.Now()` returned, from its Unix seconds and nanoseconds. -/
def nowAt (unix : Int) (nsec : Nat) : Time := ⟨unix + unixToInternal, nsec⟩

/-- The function `Expired`, with the result of `time.Now()` as an argument; `ts` is the
`uint64` time stamp and `int64(ts)` its conversion. -/
def Expired (now : Time) (ts : Nat) : Bool :=
  (timeUnix (wrapInt64 ts)).Before now

/-! ## `node.go` -/

/-- The type `encPubkey`, declared as `v4wire.Pubkey`. -/
abbrev encPubkey := Pubkey

/-- The function `encodePubkey` of package `discover`. -/
def encodePubkey (E : Collaborators) (key : PublicKey) : encPubkey :=
  ⟨makeCopy ((SigAlg E).EncodePublicKey key).length ((SigAlg E).EncodePublicKey key)⟩

/-- The method `encPubkey.id`. -/
def encPubkey.id (E : Collaborators) (e : encPubkey) : Bytes :=
  E.Keccak256Hash e.PubBytes

/-- The struct `node`: an embedded `enode.Node` (a type of package `enode`, here the
parameter `α`), the time the node was added, and the count of liveness checks. -/
structure node (α : Type) where
  Node : α
  addedAt : Time
  livenessChecks : Nat

/-- The function `wrapNode`: `&node{Node: *n}`, the other fields at their zero values. -/
def wrapNode {α : Type} (n : α) : node α := ⟨n, ⟨0, 0⟩, 0⟩

/-- The function `wrapNodes`: a slice of `len(ns)` entries, entry `i` set to
`wrapNode(ns[i])`. -/
def wrapNodes {α : Type} (ns : List α) : List (node α) := ns.map wrapNode

/-- The function `unwrapNode`: the embedded `enode.Node`. -/
def unwrapNode {α : Type} (n : node α) : α := n.Node

/-- The function `unwrapNodes`: a slice of `len(ns)` entries, entry `i` set to
`unwrapNode(ns[i])`. -/
def unwrapNodes {α : Type} (ns : List (node α)) : List α := ns.map unwrapNode

/-! ## A small instance of the collaborators

Used to evaluate the codec on concrete datagrams. The framer follows the description of the
combined signature in the specification; the hash, the primitive and the structural encoder
are small stand-ins with the right shapes (a 32-byte digest, fixed-length keys and
signatures). -/

/-- Modelled from the spec: the length field of the framer in `common` (outside the embedded
files), "fixed-width" and `w` bytes wide, holding `n` big-endian. -/
def lengthField (w n : Nat) : Bytes :=
  (List.range w).reverse.map (fun i => ⟨n / 256 ^ i % 256, Nat.mod_lt _ (by decide)⟩)

/-- Modelled from the spec: the value held by a length field of the framer in `common`. -/
def readLength (l : Bytes) : Nat :=
  l.foldl (fun acc x => acc * 256 + x.val) 0

/-- Modelled from the spec: `common.CombineTwoParts` (outside the embedded files), "each part
prefixed by its own length field", with a length field of `w` bytes. -/
def frameTwoParts (w : Nat) (part1 part2 : Bytes) : Bytes :=
  lengthField w part1.length ++ part1 ++ (lengthField w part2.length ++ part2)

/-- Modelled from the spec: `common.ExtractTwoParts` (outside the embedded files), the inverse
of the framing; "malformed framing is a decode error, never a panic". -/
def unframeTwoParts (w : Nat) (blob : Bytes) : Except Err (Bytes × Bytes) :=
  if blob.length < w then .error (.external 1)
  else
    let n1 := readLength (blob.take w)
    let rest := blob.drop w
    if rest.length < n1 + w then .error (.external 1)
    else
      let n2 := readLength ((rest.drop n1).take w)
      let rest2 := (rest.drop n1).drop w
      if rest2.length ≠ n2 then .error (.external 1)
      else .ok (rest.take n1, rest2)

/-- A stand-in for `crypto.Keccak256`: 32 bytes computed from the sum and length of the
input. -/
def demoHash (b : Bytes) : Bytes :=
  (List.range 32).map (fun i =>
    ⟨(b.foldl (fun acc x => acc + x.val) b.length + i) % 256, Nat.mod_lt _ (by decide)⟩)

/-- A stand-in signature tag of two bytes over a public key and a digest. -/
def demoTag (pub digest : Bytes) : Bytes :=
  [⟨(readLength pub + readLength digest) % 256, Nat.mod_lt _ (by decide)⟩,
   ⟨(readLength pub + 3 * readLength digest + 1) % 256, Nat.mod_lt _ (by decide)⟩]

/-- A stand-in for the derivation of the public key from the secret key bytes. -/
def demoPub (seckey : Bytes) : Bytes :=
  seckey.map (fun x => x + 1)

/-- The expiration carried by a packet, if its struct has one. -/
def Packet.expirationByte : Packet → Bytes
  | .ping p => [⟨p.Expiration % 256, Nat.mod_lt _ (by decide)⟩]
  | .pong p => [⟨p.Expiration % 256, Nat.mod_lt _ (by decide)⟩]
  | .findnode p => [⟨p.Expiration % 256, Nat.mod_lt _ (by decide)⟩]
  | .neighbors p => [⟨p.Expiration % 256, Nat.mod_lt _ (by decide)⟩]
  | .enrRequest p => [⟨p.Expiration % 256, Nat.mod_lt _ (by decide)⟩]
  | .enrResponse _ => []

/-- The expiration read back by the stand-in structural decoder, and its error. -/
def demoExpiration (body : Bytes) : Nat × Option Err :=
  match body with
  | [x] => (x.val, none)
  | _ => (0, some (.external 2))

/-- A stand-in for `common.BytesToAddress` with 20-byte addresses: the last 20 bytes,
right-aligned. -/
def demoBytesToAddress (b : Bytes) : Bytes :=
  List.replicate (20 - b.length) 0 ++ b.drop (b.length - 20)

/-- The small instance: keys and signatures of two bytes, a one-byte length field. -/
def demo : Collaborators where
  SIG_NAME := "demo"
  CRYPTO_PUBLICKEY_BYTES := 2
  CRYPTO_SECRETKEY_BYTES := 2
  CRYPTO_SIGNATURE_BYTES := 2
  LengthByteSize := 1
  Keccak256 := demoHash
  primSign := fun seckey digest => .ok (demoTag (demoPub seckey) digest)
  primVerify := fun digest sig pub =>
    if sig = demoTag pub digest then none else some (.external 3)
  CombineTwoParts := frameTwoParts 1
  ExtractTwoParts := unframeTwoParts 1
  rlpEncode := fun p => .ok p.expirationByte
  rlpDecodePing := fun b =>
    (⟨0, ⟨[], 0, 0⟩, ⟨[], 0, 0⟩, (demoExpiration b).1, 0, []⟩, (demoExpiration b).2)
  rlpDecodePong := fun b => (⟨⟨[], 0, 0⟩, [], (demoExpiration b).1, 0, []⟩, (demoExpiration b).2)
  rlpDecodeFindnode := fun b => (⟨⟨[]⟩, (demoExpiration b).1, []⟩, (demoExpiration b).2)
  rlpDecodeNeighbors := fun b => (⟨[], (demoExpiration b).1, []⟩, (demoExpiration b).2)
  rlpDecodeENRRequest := fun b => (⟨(demoExpiration b).1, []⟩, (demoExpiration b).2)
  rlpDecodeENRResponse := fun b =>
    (⟨[], ⟨[]⟩, []⟩, match b with | [] => none | _ => some (.external 2))
  primGenerateKey := fun seed =>
    .ok (demoPub [⟨seed % 256, Nat.mod_lt _ (by decide)⟩,
        ⟨seed / 256 % 256, Nat.mod_lt _ (by decide)⟩],
      [⟨seed % 256, Nat.mod_lt _ (by decide)⟩, ⟨seed / 256 % 256, Nat.mod_lt _ (by decide)⟩])
  PrivateAndPublicFromPrivateKey := fun priv => .ok (priv, demoPub priv)
  AddressLength := 20
  BytesToAddress := demoBytesToAddress
  Keccak256Hash := demoHash

/-- A key pair of the small instance. -/
def demoKey : PrivateKey := ⟨[7, 9], ⟨[8, 10]⟩⟩

/-- A request of the small instance. -/
def demoRequest : Packet := .enrRequest ⟨77, []⟩

/-- The datagram built by hand around a payload for `demoKey`: the hash, the framed signature
block over the digest of the payload, the payload. -/
def demoDatagram (payload : Bytes) : Bytes :=
  let block :=
    frameTwoParts 1 (demoTag demoKey.PublicKey.PubData (demoHash payload))
      demoKey.PublicKey.PubData
  demoHash (block ++ payload) ++ (block ++ payload)

/-- The declared length of the signature block, as `Decode` reads it. -/
def sigBlockLength (E : Collaborators) : Nat := (SigAlg E).SignatureWithPublicKeyLength

/-- The result of `Decode` on every size failure. -/
def tooSmallResult : DecodeResult := ⟨none, ⟨[]⟩, [], some .ErrPacketTooSmall⟩

theorem makeCopy_length_self (b : Bytes) : makeCopy b.length b = b := by
  simp [makeCopy]

theorem makeCopy_of_length {n : Nat} {b : Bytes} (h : b.length = n) : makeCopy n b = b := by
  subst h; exact makeCopy_length_self b

theorem slice_head (b : Bytes) (h : 32 ≤ b.length) : slice b 0 macSize = .ok (b.take 32) := by
  have h1 : (32 : Int) ≤ (b.length : Int) := by exact_mod_cast h
  simp [slice, macSize, h1]

theorem slice_block (b : Bytes) (n : Nat) (h : 32 + n ≤ b.length) :
    slice b macSize ((b.length : Int) - ((b.length : Int) - n - macSize)) =
      .ok ((b.take (32 + n)).drop 32) := by
  have e : (b.length : Int) - ((b.length : Int) - n - macSize) = ((32 + n : Nat) : Int) := by
    simp [macSize]; ring
  rw [e]
  have h1 : ((32 + n : Nat) : Int) ≤ (b.length : Int) := by exact_mod_cast h
  have h2 : macSize ≤ ((32 + n : Nat) : Int) := by simp [macSize]
  have h3 : (0 : Int) ≤ macSize := by simp [macSize]
  simp only [slice, h1, h2, h3, and_self, if_true, Int.toNat_ofNat]
  simp [macSize]

theorem slice_payload (b : Bytes) (n : Nat) (h : 32 + n ≤ b.length) :
    slice b ((b.length : Int) - ((b.length : Int) - n - macSize)) b.length =
      .ok (b.drop (32 + n)) := by
  have e : (b.length : Int) - ((b.length : Int) - n - macSize) = ((32 + n : Nat) : Int) := by
    simp [macSize]; ring
  rw [e]
  have h1 : ((32 + n : Nat) : Int) ≤ (b.length : Int) := by exact_mod_cast h
  have h3 : (0 : Int) ≤ ((32 + n : Nat) : Int) := Int.ofNat_nonneg _
  simp only [slice, h1, h3, le_refl, and_self, if_true, Int.toNat_ofNat, List.take_length]

theorem slice_tail (b : Bytes) (h : 32 ≤ b.length) :
    slice b macSize b.length = .ok (b.drop 32) := by
  have h1 : (32 : Int) ≤ (b.length : Int) := by exact_mod_cast h
  simp [slice, macSize, h1]

/-- Below the size bound `Decode` takes one of its size exits. -/
theorem Decode_of_short (E : Collaborators) (input : Bytes)
    (h : input.length < 32 + sigBlockLength E) : Decode E input = .ok tooSmallResult := by
  have h' : (input.length : Int) < 32 + (sigBlockLength E : Int) := by exact_mod_cast h
  unfold Decode
  simp only [macSize, tooSmallResult]
  unfold sigBlockLength at h'
  split_ifs <;> first | rfl | (exfalso; omega)

/-- At or above the size bound `Decode` passes all four size guards. -/
theorem Decode_of_long (E : Collaborators) (input : Bytes)
    (h : 32 + sigBlockLength E ≤ input.length) :
    Decode E input =
      decodeChecked E input input.length ((input.length : Int) - sigBlockLength E - macSize) := by
  have h' : 32 + (sigBlockLength E : Int) ≤ (input.length : Int) := by exact_mod_cast h
  unfold Decode
  simp only [macSize]
  unfold sigBlockLength at h' ⊢
  split_ifs <;> first | rfl | (exfalso; omega)

/-- The checked part of `Decode` with its four slices written out. -/
theorem decodeChecked_eq (E : Collaborators) (input : Bytes)
    (h : 32 + sigBlockLength E ≤ input.length) :
    decodeChecked E input input.length ((input.length : Int) - sigBlockLength E - macSize) =
      if input.take 32 ≠ E.Keccak256 (input.drop 32) then
        .ok ⟨none, ⟨[]⟩, [], some .ErrBadHash⟩
      else
        match recoverNodeKey E (E.Keccak256 (input.drop (32 + sigBlockLength E)))
            ((input.take (32 + sigBlockLength E)).drop 32) with
        | (fromKey, some e) => .ok ⟨none, fromKey, input.take 32, some e⟩
        | (fromKey, none) =>
          decodeDispatch E fromKey (input.take 32) (input.drop (32 + sigBlockLength E)) := by
  have h32 : 32 ≤ input.length := by omega
  unfold decodeChecked
  rw [slice_head input h32, slice_block input _ h, slice_payload input _ h,
    slice_tail input h32]
  simp only []
  split_ifs
  · rfl
  · rcases recoverNodeKey E _ _ with ⟨k, _ | e⟩ <;> rfl

theorem slice_from_one (tag : Byte) (rest : Bytes) :
    slice (tag :: rest) 1 ((tag :: rest).length : Nat) = .ok rest := by
  have h1 : (1 : Int) ≤ ((rest.length + 1 : Nat) : Int) := by
    exact_mod_cast Nat.le_add_left 1 rest.length
  simp only [slice, List.length_cons, h1, le_refl, and_self, if_true, Int.toNat_ofNat]
  simp

/-- On an empty payload the switch of `Decode` indexes out of range. -/
theorem decodeDispatch_nil (E : Collaborators) (k : Pubkey) (hash : Bytes) :
    decodeDispatch E k hash [] = .error .indexOutOfRange := rfl

/-- On a payload `tag :: rest` the switch of `Decode` written out. -/
theorem decodeDispatch_cons (E : Collaborators) (k : Pubkey) (hash : Bytes) (tag : Byte)
    (rest : Bytes) :
    decodeDispatch E k hash (tag :: rest) =
      if tag = PingPacket then
        .ok ⟨some (.ping (E.rlpDecodePing rest).1), k, hash, (E.rlpDecodePing rest).2⟩
      else if tag = PongPacket then
        .ok ⟨some (.pong (E.rlpDecodePong rest).1), k, hash, (E.rlpDecodePong rest).2⟩
      else if tag = FindnodePacket then
        .ok ⟨some (.findnode (E.rlpDecodeFindnode rest).1), k, hash,
          (E.rlpDecodeFindnode rest).2⟩
      else if tag = NeighborsPacket then
        .ok ⟨some (.neighbors (E.rlpDecodeNeighbors rest).1), k, hash,
          (E.rlpDecodeNeighbors rest).2⟩
      else if tag = ENRRequestPacket then
        .ok ⟨some (.enrRequest (E.rlpDecodeENRRequest rest).1), k, hash,
          (E.rlpDecodeENRRequest rest).2⟩
      else if tag = ENRResponsePacket then
        .ok ⟨some (.enrResponse (E.rlpDecodeENRResponse rest).1), k, hash,
          (E.rlpDecodeENRResponse rest).2⟩
      else
        .ok ⟨none, k, hash, some (.unknownType tag)⟩ := by
  unfold decodeDispatch
  simp only [index, List.get?_cons_zero, slice_from_one]

/-- Whatever the switch of `Decode` returns carries the key and hash it was given. -/
theorem decodeDispatch_frame (E : Collaborators) (k : Pubkey) (hash sigdata : Bytes)
    (r : DecodeResult) (h : decodeDispatch E k hash sigdata = .ok r) :
    r.fromKey = k ∧ r.hash = hash := by
  cases sigdata with
  | nil => rw [decodeDispatch_nil] at h; cases h
  | cons tag rest =>
    rw [decodeDispatch_cons] at h
    split_ifs at h <;> (injection h with h; subst h; exact ⟨rfl, rfl⟩)

/-- The key recovery of `Decode`, by cases on the framer and the primitive. -/
theorem recoverNodeKey_ok (E : Collaborators) (digest block sig pk : Bytes)
    (hext : E.ExtractTwoParts block = .ok (sig, pk))
    (hver : E.primVerify digest sig pk = none) :
    recoverNodeKey E digest block = (⟨pk⟩, none) := by
  simp [recoverNodeKey, HybridSig.PublicKeyBytesFromSignature, hext, hver, makeCopy]

/-- Key recovery succeeds only through a successful extraction and verification. -/
theorem recoverNodeKey_none (E : Collaborators) (digest block : Bytes) (k : Pubkey)
    (h : recoverNodeKey E digest block = (k, none)) :
    ∃ sig pk, E.ExtractTwoParts block = .ok (sig, pk) ∧ E.primVerify digest sig pk = none ∧
      k = ⟨pk⟩ := by
  unfold recoverNodeKey HybridSig.PublicKeyBytesFromSignature at h
  cases hx : E.ExtractTwoParts block with
  | error e => simp [hx] at h
  | ok sp =>
    obtain ⟨sig, pk⟩ := sp
    cases hv : E.primVerify digest sig pk with
    | some e => simp [hx, hv] at h
    | none =>
      simp [hx, hv, makeCopy] at h
      exact ⟨sig, pk, rfl, hv, h.symm⟩

/-- Key recovery that fails returns the zero key. -/
theorem recoverNodeKey_some (E : Collaborators) (digest block : Bytes) (k : Pubkey) (e : Err)
    (h : recoverNodeKey E digest block = (k, some e)) : k = ⟨[]⟩ := by
  unfold recoverNodeKey at h
  cases hx : (SigAlg E).PublicKeyBytesFromSignature E digest block with
  | error e' => simp [hx] at h; exact h.1.symm
  | ok pk => simp [hx] at h

/-- What a successful `HybridSig.Sign` did: both key parts have the declared lengths, the
primitive signed, and the result is the framing of the raw signature and the public key. -/
theorem Sign_ok (E : Collaborators) (s : HybridSig) (d : Bytes) (prv : PrivateKey) (sig : Bytes)
    (h : s.Sign E d prv = .ok sig) :
    prv.PriData.length = s.privateKeyLength ∧ prv.PublicKey.PubData.length = s.publicKeyLength ∧
    ∃ sigBytes, E.primSign prv.PriData d = .ok sigBytes ∧
      sig = E.CombineTwoParts sigBytes prv.PublicKey.PubData := by
  unfold HybridSig.Sign HybridSig.exportPrivateKey HybridSig.SerializePublicKey
    HybridSig.exportPublicKey at h
  by_cases h1 : prv.PriData.length = s.privateKeyLength
  · by_cases h2 : prv.PublicKey.PubData.length = s.publicKeyLength
    · simp only [ne_eq, h1, h2, not_true_eq_false, if_false, makeCopy_of_length] at h
      cases hs : E.primSign prv.PriData d with
      | error e => simp [hs] at h
      | ok sigBytes =>
        simp only [hs, Except.ok.injEq] at h
        exact ⟨h1, h2, sigBytes, rfl, h.symm⟩
    · simp only [ne_eq, h1, h2, not_true_eq_false, not_false_eq_true, if_false, if_true] at h
      cases hs : E.primSign (makeCopy s.privateKeyLength prv.PriData) d <;> simp [hs] at h
  · simp [h1] at h

/-- What a successful `Encode` did. -/
theorem Encode_ok (E : Collaborators) (priv : PrivateKey) (req : Packet) (packet hash : Bytes)
    (h : Encode E priv req = .ok (packet, hash)) :
    ∃ body sig, E.rlpEncode req = .ok body ∧
      (SigAlg E).Sign E (E.Keccak256 (req.Kind :: body)) priv = .ok sig ∧
      hash = E.Keccak256 (sig ++ req.Kind :: body) ∧
      packet = hash ++ (sig ++ req.Kind :: body) := by
  unfold Encode at h
  cases hb : E.rlpEncode req with
  | error e => simp [hb] at h
  | ok body =>
    simp only [hb] at h
    cases hs : (SigAlg E).Sign E (E.Keccak256 (req.Kind :: body)) priv with
    | error e => simp [hs] at h
    | ok sig =>
      simp only [hs, Except.ok.injEq, Prod.mk.injEq] at h
      exact ⟨body, sig, rfl, hs, h.2.symm, by rw [← h.1, ← h.2]⟩

/-- The four windows `Decode` cuts out of an envelope `hash ++ sig ++ payload`. -/
theorem envelope_windows (hash sig payload : Bytes) (n : Nat) (hh : hash.length = 32)
    (hs : sig.length = n) :
    (hash ++ (sig ++ payload)).take 32 = hash ∧
    (hash ++ (sig ++ payload)).drop 32 = sig ++ payload ∧
    ((hash ++ (sig ++ payload)).take (32 + n)).drop 32 = sig ∧
    (hash ++ (sig ++ payload)).drop (32 + n) = payload := by
  refine ⟨List.take_left' hh, List.drop_left' hh, ?_, ?_⟩
  · rw [← hh, List.take_append, List.drop_left, ← hs, List.take_left]
  · rw [← hh, List.drop_append, ← hs, List.drop_left]

/-- A hash mismatch on an input that passes the size guards ends `Decode` at the hash check. -/
theorem Decode_of_hash_mismatch (E : Collaborators) (input : Bytes)
    (hsize : 32 + sigBlockLength E ≤ input.length)
    (hne : input.take 32 ≠ E.Keccak256 (input.drop 32)) :
    Decode E input = .ok ⟨none, ⟨[]⟩, [], some .ErrBadHash⟩ := by
  rw [Decode_of_long E input hsize, decodeChecked_eq E input hsize, if_pos hne]

/-- The only run-time panic of `Decode`: it indexes out of range, and only on an input of
exactly `32 + SignatureWithPublicKeyLength()` bytes that passes the hash check and whose block
is split and accepted. On every other input `Decode` returns. -/
theorem Decode_error_only_if (E : Collaborators) (input : Bytes) (p : Panic)
    (h : Decode E input = .error p) :
    p = .indexOutOfRange ∧ input.length = 32 + sigBlockLength E ∧
    input.take 32 = E.Keccak256 (input.drop 32) ∧
    ∃ sig pk,
      E.ExtractTwoParts ((input.take (32 + sigBlockLength E)).drop 32) = .ok (sig, pk) ∧
      E.primVerify (E.Keccak256 (input.drop (32 + sigBlockLength E))) sig pk = none := by
  rcases Nat.lt_or_ge input.length (32 + sigBlockLength E) with hshort | hlong
  · rw [Decode_of_short E input hshort] at h
    cases h
  · rw [Decode_of_long E input hlong, decodeChecked_eq E input hlong] at h
    split_ifs at h with hh
    cases hrk : recoverNodeKey E (E.Keccak256 (input.drop (32 + sigBlockLength E)))
        ((input.take (32 + sigBlockLength E)).drop 32) with
    | mk k oe =>
      rw [hrk] at h
      cases oe with
      | some e => cases h
      | none =>
        obtain ⟨sig, pk, hx, hv, _⟩ := recoverNodeKey_none E _ _ k hrk
        simp only [] at h
        cases hd : input.drop (32 + sigBlockLength E) with
        | nil =>
          rw [hd, decodeDispatch_nil] at h
          injection h with h
          have hlen : input.length ≤ 32 + sigBlockLength E := List.drop_eq_nil_iff.mp hd
          rw [hd] at hv
          exact ⟨h.symm, by omega, not_not.mp hh, sig, pk, hx, hv⟩
        | cons tag rest =>
          rw [hd, decodeDispatch_cons] at h
          split_ifs at h

/-- The loop of `Zeroize` keeps the length of the backing array. -/
theorem zeroRange_length (l : Bytes) (off n : Nat) :
    ((List.range n).foldl (fun (c : Bytes) i => c.set (off + i) 0) l).length = l.length := by
  induction n with
  | zero => rfl
  | succ n ih =>
    rw [List.range_succ, List.foldl_append]
    simp only [List.foldl_cons, List.foldl_nil, List.length_set]
    exact ih

/-- The loop of `Zeroize` on the backing array, entry by entry: after `n` rounds the entries
at `off, ..., off + n - 1` that exist are zero and every other entry is as before. -/
theorem zeroRange_getElem? (l : Bytes) (off n j : Nat) :
    ((List.range n).foldl (fun (c : Bytes) i => c.set (off + i) 0) l)[j]? =
      if off ≤ j ∧ j < off + n then (l[j]?).map (fun _ => 0) else l[j]? := by
  induction n with
  | zero =>
    have h0 : ¬ (off ≤ j ∧ j < off + 0) := by omega
    rw [if_neg h0]
    rfl
  | succ n ih =>
    rw [List.range_succ, List.foldl_append]
    simp only [List.foldl_cons, List.foldl_nil]
    rw [List.getElem?_set, ih, zeroRange_length]
    by_cases hj : off + n = j
    · subst hj
      have h2 : off ≤ off + n ∧ off + n < off + (n + 1) := by omega
      simp only [if_true, if_pos h2]
      by_cases hlen : off + n < l.length
      · rw [if_pos hlen, List.getElem?_eq_getElem hlen]
        rfl
      · rw [if_neg hlen, List.getElem?_eq_none (Nat.le_of_not_lt hlen)]
        rfl
    · rw [if_neg hj]
      by_cases hr : off ≤ j ∧ j < off + n
      · have hr' : off ≤ j ∧ j < off + (n + 1) := by omega
        rw [if_pos hr, if_pos hr']
      · have hr' : ¬ (off ≤ j ∧ j < off + (n + 1)) := by omega
        rw [if_neg hr, if_neg hr']

/-- The memory after `n` rounds of the loop of `Zeroize`: only the backing array of the slice
changes. -/
theorem zeroLoop_memory (m : Memory) (b : SliceRef) (n : Nat) :
    (List.range n).foldl (fun m i => b.store m i 0) m =
      fun a => if a = b.arr then
        (List.range n).foldl (fun (c : Bytes) i => c.set (b.off + i) 0) (m b.arr)
      else m a := by
  induction n with
  | zero =>
    funext a
    by_cases ha : a = b.arr
    · subst ha; simp
    · simp [ha]
  | succ n ih =>
    rw [List.range_succ, List.foldl_append, List.foldl_append, ih]
    funext a
    by_cases ha : a = b.arr
    · subst ha; simp [SliceRef.store]
    · simp [SliceRef.store, ha]

/-- The bytes a slice shows, entry by entry. -/
theorem SliceRef.bytes_getElem? (m : Memory) (b : SliceRef) (i : Nat) :
    (b.bytes m)[i]? = if i < b.len then (m b.arr)[b.off + i]? else none := by
  unfold SliceRef.bytes
  rw [List.getElem?_take]
  by_cases hi : i < b.len
  · rw [if_pos hi, if_pos hi, List.getElem?_drop]
  · rw [if_neg hi, if_neg hi]

/-- What a successful `GenerateKey` returned: key parts of the declared lengths, as the
primitive produced them. -/
theorem GenerateKey_ok (E : Collaborators) (s : HybridSig) (seed : Nat) (priv : PrivateKey)
    (h : s.GenerateKey E seed = .ok (.ok priv)) :
    E.primGenerateKey seed = .ok (priv.PublicKey.PubData, priv.PriData) ∧
    priv.PriData.length = s.privateKeyLength ∧
    priv.PublicKey.PubData.length = s.publicKeyLength := by
  unfold HybridSig.GenerateKey at h
  cases hg : E.primGenerateKey seed with
  | error e => simp [hg] at h
  | ok kp =>
    obtain ⟨pubKey, priKey⟩ := kp
    simp only [hg] at h
    split_ifs at h with hc
    simp only [makeCopy_length_self, Except.ok.injEq] at h
    subst h
    simp only [not_or, not_not] at hc
    exact ⟨rfl, hc.2, hc.1⟩

/-- Below `2^63` the conversion to `int64` keeps the value. -/
theorem wrapInt64_of_range (x : Int) (h0 : -(2 ^ 63) ≤ x) (h1 : x < 2 ^ 63) :
    wrapInt64 x = x := by
  unfold wrapInt64
  omega

/-- `Expired` on a time stamp that `time.Unix` stores without wrap-around. -/
theorem Expired_of_range (unix : Int) (nsec ts : Nat)
    (hts : (ts : Int) < 2 ^ 63 - unixToInternal) :
    Expired (nowAt unix nsec) ts = true ↔
      ((ts : Int) < unix ∨ ((ts : Int) = unix ∧ 0 < nsec)) := by
  have h0 : (0 : Int) ≤ (ts : Int) := Int.ofNat_nonneg ts
  have hu : unixToInternal = 62135596800 := rfl
  have e1 : wrapInt64 (ts : Int) = ts := wrapInt64_of_range _ (by omega) (by omega)
  have e2 : wrapInt64 ((ts : Int) + unixToInternal) = (ts : Int) + unixToInternal :=
    wrapInt64_of_range _ (by omega) (by omega)
  simp only [Expired, timeUnix, nowAt, Time.Before, e1, e2, decide_eq_true_eq]
  constructor
  · rintro (h | ⟨h, hn⟩)
    · left; omega
    · right; exact ⟨by omega, hn⟩
  · rintro (h | ⟨h, hn⟩)
    · left; omega
    · right; exact ⟨by omega, hn⟩

/-- The count of zero bytes kept by the loop of `DecodePubkey`. -/
theorem zeroCount_eq (l : Bytes) (c : Nat) :
    l.foldl (fun c v => if v = 0 then c + 1 else c) c = c + l.countP (fun v => decide (v = 0)) := by
  induction l generalizing c with
  | nil => simp
  | cons a t ih =>
    rw [List.foldl_cons, ih]
    by_cases ha : a = 0
    · simp [ha]; omega
    · simp [ha]

/-- The test `count == len(keyBytes)` of `DecodePubkey` holds exactly for all-zero bytes. -/
theorem zeroCount_eq_length_iff (l : Bytes) :
    l.foldl (fun c v => if v = 0 then c + 1 else c) 0 = l.length ↔ ∀ x ∈ l, x = 0 := by
  rw [zeroCount_eq, Nat.zero_add, List.countP_eq_length]
  simp

/-- The number of bytes `bigBytesAux` adds is the number of base-256 digits. -/
theorem bigBytesAux_length (fuel n : Nat) (acc : Bytes) (h : n ≤ fuel) :
    (bigBytesAux fuel n acc).length = (Nat.digits 256 n).length + acc.length := by
  induction fuel generalizing n acc with
  | zero =>
    have h0 : n = 0 := Nat.le_zero.mp h
    subst h0
    simp [bigBytesAux]
  | succ fuel ih =>
    unfold bigBytesAux
    by_cases hn : n = 0
    · subst hn; simp
    · have hpos : 0 < n := Nat.pos_of_ne_zero hn
      have hdiv : n / 256 ≤ fuel := by
        have : n / 256 < n := Nat.div_lt_self hpos (by decide)
        omega
      rw [if_neg hn, ih (n / 256) _ hdiv, Nat.digits_def' (by decide) hpos]
      simp only [List.length_cons]
      omega

/-- The length of `big.Int.Bytes()` is the number of base-256 digits of the value. -/
theorem bigBytes_length (n : Nat) : (bigBytes n).length = (Nat.digits 256 n).length := by
  unfold bigBytes
  rw [bigBytesAux_length n n [] (Nat.le_refl n)]
  rfl

/-- Serialization of a public key of the declared length returns its bytes. -/
theorem SerializePublicKey_of_length (s : HybridSig) (pub : PublicKey)
    (h : pub.PubData.length = s.publicKeyLength) :
    s.SerializePublicKey pub = .ok pub.PubData := by
  simp [HybridSig.SerializePublicKey, HybridSig.exportPublicKey, h, makeCopy_of_length h]

/-- The wire form of a public key of the declared length holds its bytes. -/
theorem EncodePubkey_of_length (E : Collaborators) (key : PublicKey)
    (h : key.PubData.length = (SigAlg E).publicKeyLength) :
    EncodePubkey E key = ⟨key.PubData⟩ := by
  unfold EncodePubkey
  rw [SerializePublicKey_of_length _ _ h]
  simp [makeCopy_length_self]

/-- Writing one byte at position `n` and keeping `n + 1` bytes. -/
theorem take_succ_set (buf : Bytes) (n : Nat) (b : Byte) (h : n < buf.length) :
    (buf.set n b).take (n + 1) = buf.take n ++ [b] := by
  rw [List.take_succ, List.set_take,
    List.set_eq_of_length_le (by rw [List.length_take]; omega)]
  simp [h]

/-- The loop of `readASCII` fills the buffer when the reader holds enough bytes, all of them
at least `'!'`. -/
theorem readASCIILoop_full (fuel : Nat) (buf : Bytes) (n : Nat) (r : Bytes)
    (hfuel : n + fuel = buf.length) (hlen : fuel ≤ r.length)
    (hall : ∀ x ∈ r.take fuel, 33 ≤ x.val) :
    readASCIILoop fuel buf n r = (n + fuel, buf.take n ++ r.take fuel, r.drop fuel) := by
  induction fuel generalizing buf n r with
  | zero =>
    have hn : n = buf.length := by omega
    simp [readASCIILoop, hn]
  | succ fuel ih =>
    cases r with
    | nil => simp at hlen
    | cons b rest =>
      have hb : 33 ≤ b.val := hall b (by simp)
      have hnlt : n < buf.length := by omega
      unfold readASCIILoop
      simp only [Nat.not_lt.mpr hb, if_false]
      rw [ih (buf.set n b) (n + 1) rest (by rw [List.length_set]; omega)
        (by simpa using hlen)
        (fun x hx => hall x (by simp only [List.take_succ_cons]; exact List.mem_cons_of_mem b hx)),
        take_succ_set buf n b hnlt]
      simp only [List.take_succ_cons, List.drop_succ_cons, List.append_assoc,
        List.singleton_append]
      rw [Nat.add_right_comm, Nat.add_assoc]

/-- The loop of `readASCII` stops early when the reader runs out or holds a byte below `'!'`
among those it would need. -/
theorem readASCIILoop_short (fuel : Nat) (buf : Bytes) (n : Nat) (r : Bytes)
    (h : ¬ (fuel ≤ r.length ∧ ∀ x ∈ r.take fuel, 33 ≤ x.val)) :
    (readASCIILoop fuel buf n r).1 < n + fuel := by
  induction fuel generalizing buf n r with
  | zero => exact absurd ⟨Nat.zero_le _, by simp⟩ h
  | succ fuel ih =>
    cases r with
    | nil => simp [readASCIILoop]
    | cons b rest =>
      unfold readASCIILoop
      by_cases hb : b.val < 33
      · simp only [hb, if_true]; omega
      · simp only [hb, if_false]
        have h' : ¬ (fuel ≤ rest.length ∧ ∀ x ∈ rest.take fuel, 33 ≤ x.val) := by
          rintro ⟨h1, h2⟩
          apply h
          refine ⟨by simpa using h1, ?_⟩
          intro x hx
          simp only [List.take_succ_cons, List.mem_cons] at hx
          rcases hx with rfl | hx
          · omega
          · exact h2 x hx
        have := ih (buf.set n b) (n + 1) rest h'
        omega

/-- The function `checkKeyFileEnd` from round `i` accepts exactly the readers made of at most
`2 - i` bytes, each a line feed or a carriage return. -/
theorem checkKeyFileEndFrom_none_iff (i : Nat) (r : Bytes) :
    checkKeyFileEndFrom i r = none ↔ (r.length ≤ 2 - i ∧ ∀ x ∈ r, x = 10 ∨ x = 13) := by
  induction r generalizing i with
  | nil => simp [checkKeyFileEndFrom]
  | cons b rest ih =>
    unfold checkKeyFileEndFrom
    by_cases hb : b ≠ 10 ∧ b ≠ 13
    · rw [if_pos hb]
      constructor
      · intro h; cases h
      · rintro ⟨_, h2⟩
        rcases h2 b (by simp) with h | h
        · exact absurd h hb.1
        · exact absurd h hb.2
    · have hb' : b = 10 ∨ b = 13 := by
        by_cases h10 : b = 10
        · exact Or.inl h10
        · by_cases h13 : b = 13
          · exact Or.inr h13
          · exact absurd ⟨h10, h13⟩ hb
      rw [if_neg hb]
      by_cases hi : i ≥ 2
      · rw [if_pos hi]
        constructor
        · intro h; cases h
        · rintro ⟨h1, _⟩
          simp only [List.length_cons] at h1
          omega
      · rw [if_neg hi, ih (i + 1)]
        simp only [List.length_cons, List.mem_cons, forall_eq_or_imp]
        constructor
        · rintro ⟨h1, h2⟩
          exact ⟨by omega, hb', h2⟩
        · rintro ⟨h1, _, h2⟩
          exact ⟨by omega, h2⟩

/-- The errors of `checkKeyFileEnd` are its own two. -/
theorem checkKeyFileEndFrom_error (i : Nat) (r : Bytes) (e : Err)
    (h : checkKeyFileEndFrom i r = some e) :
    e = .keyFileTooLong ∨ ∃ b, e = .invalidCharacterAtEnd b := by
  induction r generalizing i with
  | nil => simp [checkKeyFileEndFrom] at h
  | cons b rest ih =>
    unfold checkKeyFileEndFrom at h
    split_ifs at h with h1 h2
    · injection h with h; exact Or.inr ⟨b, h.symm⟩
    · injection h with h; exact Or.inl h.symm
    · exact ih (i + 1) h

/-- The framing stage of `LoadPrivateKeyFromFile`, by cases on the content of the file. -/
theorem keyFileFraming_cases (s : HybridSig) (file : Bytes) :
    (s.privateKeyLength * 2 ≤ file.length ∧
        (∀ x ∈ file.take (s.privateKeyLength * 2), 33 ≤ x.val) ∧
        (file.drop (s.privateKeyLength * 2)).length ≤ 2 ∧
        (∀ x ∈ file.drop (s.privateKeyLength * 2), x = 10 ∨ x = 13) ∧
      s.keyFileFraming file = .ok (file.take (s.privateKeyLength * 2))) ∨
    (¬ (s.privateKeyLength * 2 ≤ file.length ∧
        (∀ x ∈ file.take (s.privateKeyLength * 2), 33 ≤ x.val) ∧
        (file.drop (s.privateKeyLength * 2)).length ≤ 2 ∧
        (∀ x ∈ file.drop (s.privateKeyLength * 2), x = 10 ∨ x = 13)) ∧
      ∃ e, s.keyFileFraming file = .error e ∧
        (e = .keyFileTooShort ∨ e = .keyFileTooLong ∨ ∃ b, e = .invalidCharacterAtEnd b)) := by
  have hbuf : (List.replicate (s.privateKeyLength * 2) (0 : Byte)).length =
      s.privateKeyLength * 2 := List.length_replicate _ _
  by_cases hA : s.privateKeyLength * 2 ≤ file.length ∧
      ∀ x ∈ file.take (s.privateKeyLength * 2), 33 ≤ x.val
  · have hfull := readASCIILoop_full (s.privateKeyLength * 2)
      (List.replicate (s.privateKeyLength * 2) 0) 0 file (by rw [hbuf, Nat.zero_add]) hA.1 hA.2
    have hread : readASCII (List.replicate (s.privateKeyLength * 2) 0) file =
        (s.privateKeyLength * 2, file.take (s.privateKeyLength * 2),
          file.drop (s.privateKeyLength * 2)) := by
      unfold readASCII
      rw [hbuf, hfull]
      simp
    cases hc : checkKeyFileEnd (file.drop (s.privateKeyLength * 2)) with
    | none =>
      have hc' := (checkKeyFileEndFrom_none_iff 0 _).mp hc
      refine Or.inl ⟨hA.1, hA.2, hc'.1, hc'.2, ?_⟩
      unfold HybridSig.keyFileFraming
      simp only [hread, hbuf, ne_eq, not_true_eq_false, if_false, hc]
    | some e =>
      refine Or.inr ⟨?_, e, ?_, ?_⟩
      · rintro ⟨_, _, h3, h4⟩
        have := (checkKeyFileEndFrom_none_iff 0 _).mpr ⟨h3, h4⟩
        unfold checkKeyFileEnd at hc
        rw [this] at hc
        cases hc
      · unfold HybridSig.keyFileFraming
        simp only [hread, hbuf, ne_eq, not_true_eq_false, if_false, hc]
      · rcases checkKeyFileEndFrom_error 0 _ e hc with h | h
        · exact Or.inr (Or.inl h)
        · exact Or.inr (Or.inr h)
  · have hshort := readASCIILoop_short (s.privateKeyLength * 2)
      (List.replicate (s.privateKeyLength * 2) 0) 0 file hA
    refine Or.inr ⟨fun h => hA ⟨h.1, h.2.1⟩, .keyFileTooShort, ?_, Or.inl rfl⟩
    have hne : (readASCII (List.replicate (s.privateKeyLength * 2) 0) file).1 ≠
        (List.replicate (s.privateKeyLength * 2) (0 : Byte)).length := by
      unfold readASCII
      rw [hbuf]
      omega
    unfold HybridSig.keyFileFraming
    simp only [hne, ne_eq, not_false_eq_true, if_true]

/-- C3: `Decode` returns `ErrPacketTooSmall` with a nil packet, an empty `Pubkey` and a nil
hash if and only if the input is shorter than `32 + SignatureWithPublicKeyLength()`; every
input shorter than 32 bytes is among them. -/
theorem Decode_tooSmall_iff (E : Collaborators) (input : Bytes) :
    (Decode E input = .ok ⟨none, ⟨[]⟩, [], some .ErrPacketTooSmall⟩ ↔
      input.length < 32 + (SigAlg E).SignatureWithPublicKeyLength) ∧
    (input.length < 32 → Decode E input = .ok ⟨none, ⟨[]⟩, [], some .ErrPacketTooSmall⟩) := by
  have key : input.length < 32 + sigBlockLength E → Decode E input = .ok tooSmallResult :=
    Decode_of_short E input
  refine ⟨⟨?_, key⟩, fun h => key (by omega)⟩
  intro h
  by_contra hlt
  have hlong : 32 + sigBlockLength E ≤ input.length := by
    unfold sigBlockLength; omega
  have htake : (input.take 32).length = 32 := by
    rw [List.length_take]; omega
  rw [Decode_of_long E input hlong, decodeChecked_eq E input hlong] at h
  split_ifs at h with hh
  · simp at h
  · generalize recoverNodeKey E _ _ = rk at h
    rcases rk with ⟨k, _ | e⟩
    · have := (decodeDispatch_frame E _ _ _ _ h).2
      simp only [] at this
      rw [← this] at htake
      simp at htake
    · simp only [Except.ok.injEq, DecodeResult.mk.injEq] at h
      rw [h.2.2.1] at htake
      simp at htake

/-- C4: on an input of at least `32 + SignatureWithPublicKeyLength()` bytes whose first 32
bytes differ from the hash of the rest, `Decode` returns `ErrBadHash` with a nil packet,
whatever the framer and the primitive would say about the signature block. -/
theorem Decode_badHash (E : Collaborators) (input : Bytes)
    (hsize : 32 + (SigAlg E).SignatureWithPublicKeyLength ≤ input.length)
    (hne : input.take 32 ≠ E.Keccak256 (input.drop 32)) :
    Decode E input = .ok ⟨none, ⟨[]⟩, [], some .ErrBadHash⟩ :=
  Decode_of_hash_mismatch E input hsize hne

/-- C4 at the all-zero datagram of 40 bytes in the small instance. -/
theorem Decode_badHash_witness :
    Decode demo (List.replicate 40 0) = .ok ⟨none, ⟨[]⟩, [], some .ErrBadHash⟩ :=
  Decode_badHash demo (List.replicate 40 0) (by decide) (by decide)

/-- C5: when `Decode` returns a nil error, the framer split the signature block into a
signature and a public key, the primitive accepted that signature over the hash of the
payload under that key, and the returned `Pubkey` holds exactly that key; and when no such
split and acceptance exists, `Decode` returns an error with a nil packet and an empty
`Pubkey`. -/
theorem Decode_authenticates (E : Collaborators) (input : Bytes) :
    (∀ r, Decode E input = .ok r → r.err = none →
      ∃ sig pk,
        E.ExtractTwoParts
            ((input.take (32 + (SigAlg E).SignatureWithPublicKeyLength)).drop 32) = .ok (sig, pk) ∧
        E.primVerify (E.Keccak256 (input.drop (32 + (SigAlg E).SignatureWithPublicKeyLength)))
            sig pk = none ∧
        r.fromKey.PubBytes = pk) ∧
    ((¬ ∃ sig pk,
        E.ExtractTwoParts
            ((input.take (32 + (SigAlg E).SignatureWithPublicKeyLength)).drop 32) = .ok (sig, pk) ∧
        E.primVerify (E.Keccak256 (input.drop (32 + (SigAlg E).SignatureWithPublicKeyLength)))
            sig pk = none) →
      ∃ r, Decode E input = .ok r ∧ r.err ≠ none ∧ r.req = none ∧ r.fromKey = ⟨[]⟩) := by
  rcases Nat.lt_or_ge input.length (32 + sigBlockLength E) with hshort | hlong
  · rw [Decode_of_short E input hshort]
    refine ⟨?_, fun _ => ⟨_, rfl, by simp [tooSmallResult], rfl, rfl⟩⟩
    intro r hr he
    injection hr with hr
    subst hr
    simp [tooSmallResult] at he
  · rw [Decode_of_long E input hlong, decodeChecked_eq E input hlong]
    split_ifs with hh
    · refine ⟨?_, fun _ => ⟨_, rfl, by simp, rfl, rfl⟩⟩
      intro r hr he
      injection hr with hr
      subst hr
      simp at he
    · change (∀ r, _ → _ → ∃ sig pk,
          E.ExtractTwoParts ((input.take (32 + sigBlockLength E)).drop 32) = .ok (sig, pk) ∧
          E.primVerify (E.Keccak256 (input.drop (32 + sigBlockLength E))) sig pk = none ∧ _) ∧
        ((¬ ∃ sig pk,
          E.ExtractTwoParts ((input.take (32 + sigBlockLength E)).drop 32) = .ok (sig, pk) ∧
          E.primVerify (E.Keccak256 (input.drop (32 + sigBlockLength E))) sig pk = none) → _)
      cases hrk : recoverNodeKey E (E.Keccak256 (input.drop (32 + sigBlockLength E)))
          ((input.take (32 + sigBlockLength E)).drop 32) with
      | mk k oe =>
        cases oe with
        | some e =>
          have hk := recoverNodeKey_some E _ _ k e hrk
          refine ⟨?_, fun _ => ⟨_, rfl, by simp, rfl, hk⟩⟩
          intro r hr he
          injection hr with hr
          subst hr
          simp at he
        | none =>
          obtain ⟨sig, pk, hx, hv, hkk⟩ := recoverNodeKey_none E _ _ k hrk
          refine ⟨?_, fun hno => absurd ⟨sig, pk, hx, hv⟩ hno⟩
          intro r hr _
          refine ⟨sig, pk, hx, hv, ?_⟩
          rw [(decodeDispatch_frame E _ _ _ _ hr).1, hkk]

/-- C5 at a well-formed datagram of the small instance (nil error, verified key) and at the
all-zero datagram (no acceptance, so an error with nil packet and empty key). -/
theorem Decode_authenticates_witness :
    (Decode demo (demoDatagram [5, 77]) = .ok ⟨some demoRequest, ⟨[8, 10]⟩,
        (demoDatagram [5, 77]).take 32, none⟩ ∧
      ∃ sig pk,
        demo.ExtractTwoParts (((demoDatagram [5, 77]).take
          (32 + (SigAlg demo).SignatureWithPublicKeyLength)).drop 32) = .ok (sig, pk) ∧
        demo.primVerify (demo.Keccak256 ((demoDatagram [5, 77]).drop
          (32 + (SigAlg demo).SignatureWithPublicKeyLength))) sig pk = none ∧
        [8, 10] = pk) ∧
    ∃ r, Decode demo (List.replicate 40 0) = .ok r ∧ r.err ≠ none ∧ r.req = none ∧
      r.fromKey = ⟨[]⟩ :=
  ⟨⟨by decide,
    (Decode_authenticates demo (demoDatagram [5, 77])).1
      ⟨some demoRequest, ⟨[8, 10]⟩, (demoDatagram [5, 77]).take 32, none⟩ (by decide) rfl⟩,
   (Decode_authenticates demo (List.replicate 40 0)).2 (by
      rintro ⟨sig, pk, hx, hv⟩
      have h1 : demo.ExtractTwoParts (((List.replicate 40 0 : Bytes).take (32 + 6)).drop 32) =
          .error (.external 1) := by decide
      have h2 : (SigAlg demo).SignatureWithPublicKeyLength = 6 := rfl
      rw [h2, h1] at hx
      cases hx)⟩

/-- C10: on an input that passes the size check with a non-empty payload `tag :: rest`, the
hash check, and the signature check (the framer splits the block into `sig` and `pk` and the
primitive accepts): a tag outside 1..6 gives a nil packet and the unknown-type error, a tag in
1..6 gives a non-nil packet whose `Kind()` is the tag; both come with the recovered key `pk`
and the 32-byte hash. -/
theorem Decode_dispatch (E : Collaborators) (input sig pk rest : Bytes) (tag : Byte)
    (hsize : 32 + (SigAlg E).SignatureWithPublicKeyLength ≤ input.length)
    (hhash : input.take 32 = E.Keccak256 (input.drop 32))
    (hext : E.ExtractTwoParts
      ((input.take (32 + (SigAlg E).SignatureWithPublicKeyLength)).drop 32) = .ok (sig, pk))
    (hver : E.primVerify
      (E.Keccak256 (input.drop (32 + (SigAlg E).SignatureWithPublicKeyLength))) sig pk = none)
    (hpayload : input.drop (32 + (SigAlg E).SignatureWithPublicKeyLength) = tag :: rest) :
    ((tag.val < 1 ∨ 6 < tag.val) →
      Decode E input = .ok ⟨none, ⟨pk⟩, input.take 32, some (.unknownType tag)⟩) ∧
    ((1 ≤ tag.val ∧ tag.val ≤ 6) →
      ∃ p e, Decode E input = .ok ⟨some p, ⟨pk⟩, input.take 32, e⟩ ∧ p.Kind = tag) := by
  have hrec := recoverNodeKey_ok E _ _ sig pk hext hver
  have hD : Decode E input = decodeDispatch E ⟨pk⟩ (input.take 32) (tag :: rest) := by
    rw [Decode_of_long E input hsize, decodeChecked_eq E input hsize, if_neg (not_not.mpr hhash)]
    unfold sigBlockLength
    rw [hrec, hpayload]
  rw [hD, decodeDispatch_cons]
  obtain ⟨v, hv⟩ := tag
  constructor
  · intro hout
    simp only [PingPacket, PongPacket, FindnodePacket, NeighborsPacket, ENRRequestPacket,
      ENRResponsePacket]
    have n1 : (⟨v, hv⟩ : Byte) ≠ 1 := by
      intro h; have := congrArg Fin.val h; simp at this; simp at hout; omega
    have n2 : (⟨v, hv⟩ : Byte) ≠ 2 := by
      intro h; have := congrArg Fin.val h; simp at this; simp at hout; omega
    have n3 : (⟨v, hv⟩ : Byte) ≠ 3 := by
      intro h; have := congrArg Fin.val h; simp at this; simp at hout; omega
    have n4 : (⟨v, hv⟩ : Byte) ≠ 4 := by
      intro h; have := congrArg Fin.val h; simp at this; simp at hout; omega
    have n5 : (⟨v, hv⟩ : Byte) ≠ 5 := by
      intro h; have := congrArg Fin.val h; simp at this; simp at hout; omega
    have n6 : (⟨v, hv⟩ : Byte) ≠ 6 := by
      intro h; have := congrArg Fin.val h; simp at this; simp at hout; omega
    rw [if_neg n1, if_neg n2, if_neg n3, if_neg n4, if_neg n5, if_neg n6]
  · rintro ⟨h1, h6⟩
    simp only [] at h1 h6
    interval_cases v
    · exact ⟨_, _, rfl, rfl⟩
    · exact ⟨_, _, rfl, rfl⟩
    · exact ⟨_, _, rfl, rfl⟩
    · exact ⟨_, _, rfl, rfl⟩
    · exact ⟨_, _, rfl, rfl⟩
    · exact ⟨_, _, rfl, rfl⟩

/-- C10 at two datagrams of the small instance: the reserved tag 0 and the tag 2. -/
theorem Decode_dispatch_witness :
    Decode demo (demoDatagram [0, 77]) =
        .ok ⟨none, ⟨[8, 10]⟩, (demoDatagram [0, 77]).take 32, some (.unknownType 0)⟩ ∧
    ∃ p e, Decode demo (demoDatagram [2, 77]) =
        .ok ⟨some p, ⟨[8, 10]⟩, (demoDatagram [2, 77]).take 32, e⟩ ∧ p.Kind = 2 :=
  ⟨(Decode_dispatch demo (demoDatagram [0, 77])
      (demoTag [8, 10] (demoHash [0, 77])) [8, 10] [77] 0
      (by decide) (by decide) (by decide) (by decide) (by decide)).1 (by decide),
   (Decode_dispatch demo (demoDatagram [2, 77])
      (demoTag [8, 10] (demoHash [2, 77])) [8, 10] [77] 2
      (by decide) (by decide) (by decide) (by decide) (by decide)).2 (by decide)⟩

/-- C2: an input of exactly `32 + SignatureWithPublicKeyLength()` bytes (an empty payload)
that passes the hash check and whose signature block is split and accepted makes `Decode`
evaluate `sigdata[0]` on an empty slice: the call ends in a run-time panic instead of
returning. -/
theorem Decode_emptyPayload_panics (E : Collaborators) (input sig pk : Bytes)
    (hsize : input.length = 32 + (SigAlg E).SignatureWithPublicKeyLength)
    (hhash : input.take 32 = E.Keccak256 (input.drop 32))
    (hext : E.ExtractTwoParts
      ((input.take (32 + (SigAlg E).SignatureWithPublicKeyLength)).drop 32) = .ok (sig, pk))
    (hver : E.primVerify
      (E.Keccak256 (input.drop (32 + (SigAlg E).SignatureWithPublicKeyLength))) sig pk = none) :
    Decode E input = .error .indexOutOfRange := by
  have hrec := recoverNodeKey_ok E _ _ sig pk hext hver
  have hlong : 32 + sigBlockLength E ≤ input.length := by
    unfold sigBlockLength; omega
  have hnil : input.drop (32 + (SigAlg E).SignatureWithPublicKeyLength) = [] := by
    rw [← hsize]; exact List.drop_length input
  rw [Decode_of_long E input hlong, decodeChecked_eq E input hlong, if_neg (not_not.mpr hhash)]
  unfold sigBlockLength
  rw [hrec, hnil]
  rfl

/-- C2 at the 38-byte datagram of the small instance with an empty payload. -/
theorem Decode_emptyPayload_panics_witness :
    (demoDatagram []).length = 38 ∧
      Decode demo (demoDatagram []) = .error .indexOutOfRange :=
  ⟨by decide,
   Decode_emptyPayload_panics demo (demoDatagram []) (demoTag [8, 10] (demoHash [])) [8, 10]
    (by decide) (by decide) (by decide) (by decide)⟩

/-- C8: when `Encode` succeeds, with `payload` the `Kind` byte followed by the structural
encoding of the request and `sig` the result of `SigAlg.Sign` over the hash of `payload`, the
packet is `hash ++ sig ++ payload`, the returned hash is the hash of `sig ++ payload`, and
(the hash function returning 32 bytes) it is the first 32 bytes of the packet. -/
theorem Encode_envelope (E : Collaborators) (priv : PrivateKey) (req : Packet)
    (packet hash : Bytes) (henc : Encode E priv req = .ok (packet, hash))
    (hkeccak : ∀ b, (E.Keccak256 b).length = 32) :
    ∃ body sig, E.rlpEncode req = .ok body ∧
      (SigAlg E).Sign E (E.Keccak256 (req.Kind :: body)) priv = .ok sig ∧
      packet = hash ++ sig ++ (req.Kind :: body) ∧
      hash = E.Keccak256 (sig ++ (req.Kind :: body)) ∧
      hash = packet.take 32 := by
  obtain ⟨body, sig, hb, hs, hh, hp⟩ := Encode_ok E priv req packet hash henc
  refine ⟨body, sig, hb, hs, by rw [hp, List.append_assoc], hh, ?_⟩
  have hl : hash.length = 32 := by rw [hh]; exact hkeccak _
  rw [hp]
  exact (List.take_left' hl).symm

/-- C8 at the request of the small instance. -/
theorem Encode_envelope_witness :
    ∃ body sig, demo.rlpEncode demoRequest = .ok body ∧
      (SigAlg demo).Sign demo (demo.Keccak256 (demoRequest.Kind :: body)) demoKey = .ok sig ∧
      demoDatagram [5, 77] =
        demoHash [2, 125, 100, 2, 8, 10, 5, 77] ++ sig ++ (demoRequest.Kind :: body) ∧
      demoHash [2, 125, 100, 2, 8, 10, 5, 77] =
        demo.Keccak256 (sig ++ (demoRequest.Kind :: body)) ∧
      demoHash [2, 125, 100, 2, 8, 10, 5, 77] = (demoDatagram [5, 77]).take 32 :=
  Encode_envelope demo demoKey demoRequest (demoDatagram [5, 77])
    (demoHash [2, 125, 100, 2, 8, 10, 5, 77]) (by decide) (fun b => by simp [demo, demoHash])

/-- C6: in a packet produced by a successful `Encode`, overwriting the byte at a position
`i < 32` with a value different from the one stored there makes `Decode` return `ErrBadHash`
(the hash has 32 bytes and the block `Sign` returns has the declared length). -/
theorem Decode_tampered_hash (E : Collaborators) (priv : PrivateKey) (req : Packet)
    (packet hash : Bytes) (henc : Encode E priv req = .ok (packet, hash))
    (hkeccak : ∀ b, (E.Keccak256 b).length = 32)
    (hblock : ∀ d sig, (SigAlg E).Sign E d priv = .ok sig →
      sig.length = (SigAlg E).SignatureWithPublicKeyLength)
    (i : Nat) (hi : i < 32) (v : Byte) (hv : packet[i]? ≠ some v) :
    Decode E (packet.set i v) = .ok ⟨none, ⟨[]⟩, [], some .ErrBadHash⟩ := by
  obtain ⟨body, sig, hb, hs, hh, hp⟩ := Encode_ok E priv req packet hash henc
  have hl : hash.length = 32 := by rw [hh]; exact hkeccak _
  have hsl := hblock _ sig hs
  have hil : i < hash.length := by omega
  have hset : packet.set i v = hash.set i v ++ (sig ++ req.Kind :: body) := by
    rw [hp, List.set_append_left i v hil]
  have hl2 : (hash.set i v).length = 32 := by rw [List.length_set]; exact hl
  obtain ⟨w1, w2, _, _⟩ := envelope_windows (hash.set i v) sig (req.Kind :: body) _ hl2 hsl
  apply Decode_of_hash_mismatch
  · rw [hset]
    unfold sigBlockLength
    simp only [List.length_append, List.length_set, List.length_cons]
    omega
  · rw [hset, w1, w2, ← hh]
    intro heq
    apply hv
    have h1 : (hash.set i v)[i]? = some v := by
      rw [List.getElem?_set]; simp [hil]
    rw [heq] at h1
    rw [hp, List.getElem?_append_left hil]
    exact h1

/-- C6 at the packet of the small instance, byte 0 overwritten with 0. -/
theorem Decode_tampered_hash_witness :
    (demoDatagram [5, 77])[0]? ≠ some 0 ∧
      Decode demo ((demoDatagram [5, 77]).set 0 0) = .ok ⟨none, ⟨[]⟩, [], some .ErrBadHash⟩ :=
  ⟨by decide,
   Decode_tampered_hash demo demoKey demoRequest (demoDatagram [5, 77])
    ((demoDatagram [5, 77]).take 32) (by decide) (fun b => by simp [demo, demoHash])
    (fun d sig h => by injection h with h; subst h; rfl) 0 (by decide) 0 (by decide)⟩

/-- C9 as stated fails: in the small instance, whose framer writes a length field before each
part, the bytes after the hash of an encoded packet are not the raw signature followed by the
raw public key followed by the payload. -/
theorem Encode_tail_not_plain_concatenation :
    ¬ (∀ (priv : PrivateKey) (req : Packet) (packet hash : Bytes),
        Encode demo priv req = .ok (packet, hash) →
        ∃ body sigBytes pubBytes,
          demo.rlpEncode req = .ok body ∧
          demo.primSign priv.PriData (demo.Keccak256 (req.Kind :: body)) = .ok sigBytes ∧
          (SigAlg demo).SerializePublicKey priv.PublicKey = .ok pubBytes ∧
          packet.drop 32 = sigBytes ++ pubBytes ++ (req.Kind :: body)) := by
  intro h
  obtain ⟨body, sigBytes, pubBytes, hb, hs, hpub, ht⟩ :=
    h demoKey demoRequest (demoDatagram [5, 77]) ((demoDatagram [5, 77]).take 32) (by decide)
  injection hb with hb
  subst hb
  injection hs with hs
  subst hs
  injection hpub with hpub
  subst hpub
  revert ht
  decide

/-- C9, amended: when `Encode` succeeds, the bytes that follow the 32-byte hash are
`CombineTwoParts(sigBytes, pubBytes)`, the framing `HybridSig.Sign` returns for the raw
primitive signature `sigBytes` and the serialized public key `pubBytes` of `priv`,
immediately followed by the payload. -/
theorem Encode_tail_framed (E : Collaborators) (priv : PrivateKey) (req : Packet)
    (packet hash : Bytes) (henc : Encode E priv req = .ok (packet, hash))
    (hkeccak : ∀ b, (E.Keccak256 b).length = 32) :
    ∃ body sigBytes pubBytes,
      E.rlpEncode req = .ok body ∧
      E.primSign priv.PriData (E.Keccak256 (req.Kind :: body)) = .ok sigBytes ∧
      (SigAlg E).SerializePublicKey priv.PublicKey = .ok pubBytes ∧
      packet.take 32 = hash ∧
      packet.drop 32 = E.CombineTwoParts sigBytes pubBytes ++ (req.Kind :: body) := by
  obtain ⟨body, sig, hb, hs, hh, hp⟩ := Encode_ok E priv req packet hash henc
  obtain ⟨_, hpub, sigBytes, hprim, hsig⟩ := Sign_ok E _ _ priv sig hs
  have hl : hash.length = 32 := by rw [hh]; exact hkeccak _
  refine ⟨body, sigBytes, priv.PublicKey.PubData, hb, hprim, ?_, ?_, ?_⟩
  · simp [HybridSig.SerializePublicKey, HybridSig.exportPublicKey, hpub, makeCopy_of_length]
  · rw [hp]; exact List.take_left' hl
  · rw [hp, List.drop_left' hl, hsig]

/-- C9, amended, at the request of the small instance: after the hash come the length field
2, the signature, the length field 2, the key, then the payload. -/
theorem Encode_tail_framed_witness :
    (demoDatagram [5, 77]).drop 32 = [2, 125, 100, 2, 8, 10, 5, 77] ∧
    ∃ body sigBytes pubBytes,
      demo.rlpEncode demoRequest = .ok body ∧
      demo.primSign demoKey.PriData (demo.Keccak256 (demoRequest.Kind :: body)) = .ok sigBytes ∧
      (SigAlg demo).SerializePublicKey demoKey.PublicKey = .ok pubBytes ∧
      (demoDatagram [5, 77]).take 32 = demoHash [2, 125, 100, 2, 8, 10, 5, 77] ∧
      (demoDatagram [5, 77]).drop 32 =
        demo.CombineTwoParts sigBytes pubBytes ++ (demoRequest.Kind :: body) :=
  ⟨by decide,
   Encode_tail_framed demo demoKey demoRequest (demoDatagram [5, 77])
    (demoHash [2, 125, 100, 2, 8, 10, 5, 77]) (by decide) (fun b => by simp [demo, demoHash])⟩

/-- C7 as stated fails: in the small instance, with the nil digest, the call succeeds on a
block whose signature the primitive rejects over the nil digest. -/
theorem nilDigest_returns_unverified_key :
    ¬ (∀ (digest : Option Bytes) (blob sig pk : Bytes),
        (SigAlg demo).PublicKeyAndSignatureFromCombinedSignature demo digest blob =
          .ok (sig, pk) →
        demo.primVerify (digest.getD []) sig pk = none) := by
  intro h
  have := h none (frameTwoParts 1 [0, 0] [0, 0]) [0, 0] [0, 0] (by decide)
  revert this
  decide

/-- C7, amended: with a non-nil digest the call succeeds only if the framer split the block
and the primitive `Verify` accepted the extracted signature over that digest under the
extracted key; with the nil digest the call returns what the framer extracted, without
calling `Verify`. -/
theorem PublicKeyAndSignature_verified_unless_nil (E : Collaborators) (s : HybridSig)
    (blob : Bytes) :
    (∀ d sig pk, s.PublicKeyAndSignatureFromCombinedSignature E (some d) blob = .ok (sig, pk) →
      E.ExtractTwoParts blob = .ok (sig, pk) ∧ E.primVerify d sig pk = none) ∧
    s.PublicKeyAndSignatureFromCombinedSignature E none blob = E.ExtractTwoParts blob := by
  unfold HybridSig.PublicKeyAndSignatureFromCombinedSignature
  cases hx : E.ExtractTwoParts blob with
  | error e => simp
  | ok sp =>
    obtain ⟨sig0, pk0⟩ := sp
    refine ⟨?_, rfl⟩
    intro d sig pk h
    cases hv : E.primVerify d sig0 pk0 with
    | some e => simp [hv] at h
    | none =>
      simp only [hv, Except.ok.injEq, Prod.mk.injEq] at h
      obtain ⟨h1, h2⟩ := h
      subst h1
      subst h2
      exact ⟨rfl, hv⟩

/-- C7, amended, at a well-signed block of the small instance. -/
theorem PublicKeyAndSignature_verified_unless_nil_witness :
    demo.ExtractTwoParts (frameTwoParts 1 (demoTag [8, 10] [1]) [8, 10]) =
        .ok (demoTag [8, 10] [1], [8, 10]) ∧
      demo.primVerify [1] (demoTag [8, 10] [1]) [8, 10] = none :=
  (PublicKeyAndSignature_verified_unless_nil demo (SigAlg demo)
    (frameTwoParts 1 (demoTag [8, 10] [1]) [8, 10])).1 [1] (demoTag [8, 10] [1]) [8, 10]
    (by decide)

/-- C12: for a public key whose data has the declared length, `SerializePublicKey` succeeds
with the key's bytes, and `DeserializePublicKey` of them succeeds and returns a key with the
same bytes. -/
theorem DeserializePublicKey_SerializePublicKey (s : HybridSig) (pub : PublicKey)
    (hlen : pub.PubData.length = s.PublicKeyLength) :
    ∃ b, s.SerializePublicKey pub = .ok b ∧
      ∃ k, s.DeserializePublicKey b = .ok k ∧ k.PubData = pub.PubData := by
  have hlen' : pub.PubData.length = s.publicKeyLength := hlen
  refine ⟨pub.PubData, ?_, pub, ?_, rfl⟩
  · simp [HybridSig.SerializePublicKey, HybridSig.exportPublicKey, hlen',
      makeCopy_of_length hlen']
  · simp [HybridSig.DeserializePublicKey, HybridSig.convertBytesToPublic, hlen',
      makeCopy_of_length hlen']

/-- C12 at the public key of the small instance. -/
theorem DeserializePublicKey_SerializePublicKey_witness :
    ∃ b, (SigAlg demo).SerializePublicKey ⟨[8, 10]⟩ = .ok b ∧
      ∃ k, (SigAlg demo).DeserializePublicKey b = .ok k ∧
        k.PubData = (⟨[8, 10]⟩ : PublicKey).PubData :=
  DeserializePublicKey_SerializePublicKey (SigAlg demo) ⟨[8, 10]⟩ (by decide)

/-- C13: for a key `priv` returned by `GenerateKey`, `SerializePrivateKey` succeeds with the
secret bytes alone, and `DeserializePrivateKey` of them succeeds and returns `priv`, secret
bytes and embedded public key; the hypothesis on the collaborator is that
`PrivateAndPublicFromPrivateKey` returns the secret bytes and re-derives the public key of
the pair. -/
theorem DeserializePrivateKey_SerializePrivateKey (E : Collaborators) (s : HybridSig)
    (seed : Nat) (priv : PrivateKey)
    (hgen : s.GenerateKey E seed = .ok (.ok priv))
    (hderive : E.PrivateAndPublicFromPrivateKey priv.PriData =
      .ok (priv.PriData, priv.PublicKey.PubData)) :
    s.SerializePrivateKey priv = .ok priv.PriData ∧
      s.DeserializePrivateKey E priv.PriData = .ok priv := by
  obtain ⟨_, hpri, hpub⟩ := GenerateKey_ok E s seed priv hgen
  constructor
  · simp [HybridSig.SerializePrivateKey, HybridSig.exportPrivateKey, hpri,
      makeCopy_of_length hpri]
  · simp [HybridSig.DeserializePrivateKey, hderive, HybridSig.convertBytesToPrivate,
      HybridSig.convertBytesToPublic, hpri, hpub, makeCopy_of_length hpri,
      makeCopy_of_length hpub]

/-- C13 at the key pair the small instance generates from the seed 2311. -/
theorem DeserializePrivateKey_SerializePrivateKey_witness :
    (SigAlg demo).GenerateKey demo 2311 = .ok (.ok demoKey) ∧
      (SigAlg demo).SerializePrivateKey demoKey = .ok demoKey.PriData ∧
      (SigAlg demo).DeserializePrivateKey demo demoKey.PriData = .ok demoKey :=
  ⟨by decide,
   DeserializePrivateKey_SerializePrivateKey demo (SigAlg demo) 2311 demoKey (by decide)
    (by decide)⟩

/-- C14: `DeserializePublicKey(b)` fails with `ErrInvalidPublicKeyLen` if and only if the
length of `b` differs from `PublicKeyLength()`, and otherwise returns the key whose bytes are
`b`; `SerializePublicKey` fails with `ErrInvalidPublicKeyLen`, and `SerializePrivateKey` with
`ErrInvalidPrivateKeyLen`, if and only if the stored length differs from the declared one, and
otherwise they return the stored bytes. -/
theorem key_codec_length_errors (s : HybridSig) (b : Bytes) (pub : PublicKey)
    (priv : PrivateKey) :
    ((s.DeserializePublicKey b = .error .ErrInvalidPublicKeyLen ↔
        b.length ≠ s.PublicKeyLength) ∧
      (b.length = s.PublicKeyLength → s.DeserializePublicKey b = .ok ⟨b⟩)) ∧
    ((s.SerializePublicKey pub = .error .ErrInvalidPublicKeyLen ↔
        pub.PubData.length ≠ s.PublicKeyLength) ∧
      (pub.PubData.length = s.PublicKeyLength →
        s.SerializePublicKey pub = .ok pub.PubData)) ∧
    ((s.SerializePrivateKey priv = .error .ErrInvalidPrivateKeyLen ↔
        priv.PriData.length ≠ s.PrivateKeyLength) ∧
      (priv.PriData.length = s.PrivateKeyLength →
        s.SerializePrivateKey priv = .ok priv.PriData)) := by
  unfold HybridSig.PublicKeyLength HybridSig.PrivateKeyLength
  refine ⟨?_, ?_, ?_⟩
  · by_cases h : b.length = s.publicKeyLength
    · simp [HybridSig.DeserializePublicKey, HybridSig.convertBytesToPublic, h,
        makeCopy_of_length h]
    · simp [HybridSig.DeserializePublicKey, HybridSig.convertBytesToPublic, h]
  · by_cases h : pub.PubData.length = s.publicKeyLength
    · simp [HybridSig.SerializePublicKey, HybridSig.exportPublicKey, h, makeCopy_of_length h]
    · simp [HybridSig.SerializePublicKey, HybridSig.exportPublicKey, h]
  · by_cases h : priv.PriData.length = s.privateKeyLength
    · simp [HybridSig.SerializePrivateKey, HybridSig.exportPrivateKey, h,
        makeCopy_of_length h]
    · simp [HybridSig.SerializePrivateKey, HybridSig.exportPrivateKey, h]

/-- C17 as stated fails: for a key whose public key bytes are a part of the array that holds
the secret bytes (here `PubData = PriData[2:4]`), `Zeroize` zeroes the public key as well. -/
theorem Zeroize_aliased_public_key :
    ¬ (∀ (s : HybridSig) (m : Memory) (k : PrivateKeyRef),
        (k.value (s.Zeroize m k)).PriData.length = (k.value m).PriData.length ∧
        (∀ x ∈ (k.value (s.Zeroize m k)).PriData, x = 0) ∧
        (k.value (s.Zeroize m k)).PublicKey = (k.value m).PublicKey) := by
  intro h
  have h3 := (h (SigAlg demo) (fun a => if a = 0 then [7, 9, 8, 10] else [])
    ⟨⟨0, 0, 4⟩, ⟨0, 2, 2⟩⟩).2.2
  revert h3
  decide

/-- C17, amended: after `Zeroize` the secret bytes of every key have the length they had and
are all 0; the public key bytes are unchanged when they do not share storage with the secret
bytes, that is when `PubData` lies in another backing array or in a part of the same array
that does not meet `PriData`. -/
theorem Zeroize_effect (s : HybridSig) (m : Memory) (k : PrivateKeyRef) :
    (k.value (s.Zeroize m k)).PriData.length = (k.value m).PriData.length ∧
    (∀ x ∈ (k.value (s.Zeroize m k)).PriData, x = 0) ∧
    ((k.PubData.arr ≠ k.PriData.arr ∨ k.PubData.off + k.PubData.len ≤ k.PriData.off ∨
        k.PriData.off + k.PriData.len ≤ k.PubData.off) →
      (k.value (s.Zeroize m k)).PublicKey = (k.value m).PublicKey) := by
  have hm : s.Zeroize m k = fun a => if a = k.PriData.arr then
        (List.range k.PriData.len).foldl (fun (c : Bytes) i => c.set (k.PriData.off + i) 0)
          (m k.PriData.arr)
      else m a := zeroLoop_memory m k.PriData k.PriData.len
  have hpri : (s.Zeroize m k) k.PriData.arr =
      (List.range k.PriData.len).foldl (fun (c : Bytes) i => c.set (k.PriData.off + i) 0)
        (m k.PriData.arr) := by
    rw [hm]; simp
  refine ⟨?_, ?_, ?_⟩
  · simp only [PrivateKeyRef.value, SliceRef.bytes, List.length_take, List.length_drop, hpri,
      zeroRange_length]
  · intro x hx
    obtain ⟨i, hi⟩ := List.getElem?_of_mem hx
    simp only [PrivateKeyRef.value] at hi
    rw [SliceRef.bytes_getElem?] at hi
    split_ifs at hi with hlt
    rw [hpri, zeroRange_getElem?,
      if_pos (by omega : k.PriData.off ≤ k.PriData.off + i ∧
        k.PriData.off + i < k.PriData.off + k.PriData.len)] at hi
    cases hget : (m k.PriData.arr)[k.PriData.off + i]? with
    | none => rw [hget] at hi; cases hi
    | some y =>
      rw [hget] at hi
      injection hi with hi
      exact hi.symm
  · intro hsep
    simp only [PrivateKeyRef.value, PrivateKey.mk.injEq, PublicKey.mk.injEq, true_and]
    apply List.ext_getElem?
    intro i
    rw [SliceRef.bytes_getElem?, SliceRef.bytes_getElem?]
    by_cases hi : i < k.PubData.len
    · rw [if_pos hi, if_pos hi]
      by_cases harr : k.PubData.arr = k.PriData.arr
      · rw [harr, hpri, zeroRange_getElem?, if_neg]
        rcases hsep with h | h | h
        · exact absurd harr h
        · omega
        · omega
      · rw [hm]; simp [harr]
    · rw [if_neg hi, if_neg hi]

/-- C17, amended, on a key whose secret and public bytes lie in two arrays. -/
theorem Zeroize_effect_witness :
    (PrivateKeyRef.value
        ((SigAlg demo).Zeroize (fun a => if a = 0 then [7, 9] else [8, 10])
          ⟨⟨0, 0, 2⟩, ⟨1, 0, 2⟩⟩) ⟨⟨0, 0, 2⟩, ⟨1, 0, 2⟩⟩).PublicKey =
      (PrivateKeyRef.value (fun a => if a = 0 then [7, 9] else [8, 10])
        ⟨⟨0, 0, 2⟩, ⟨1, 0, 2⟩⟩).PublicKey ∧
    PrivateKeyRef.value
        ((SigAlg demo).Zeroize (fun a => if a = 0 then [7, 9] else [8, 10])
          ⟨⟨0, 0, 2⟩, ⟨1, 0, 2⟩⟩) ⟨⟨0, 0, 2⟩, ⟨1, 0, 2⟩⟩ = ⟨[0, 0], ⟨[8, 10]⟩⟩ :=
  ⟨(Zeroize_effect (SigAlg demo) (fun a => if a = 0 then [7, 9] else [8, 10])
      ⟨⟨0, 0, 2⟩, ⟨1, 0, 2⟩⟩).2.2 (Or.inl (by decide)),
   by decide⟩

/-- C15: for a public key of the declared length `PublicKeyToAddress` returns, without error,
the address made of the hash of the serialized key with its first 12 bytes skipped, 20 bytes;
for a key of any other length it returns the zero address and an error. Hypotheses on the
collaborators: the hash has 32 bytes, and `BytesToAddress` of 20 bytes is the address with
those bytes. -/
theorem PublicKeyToAddress_spec (E : Collaborators) (p : PublicKey)
    (hkeccak : ∀ b, (E.Keccak256 b).length = 32)
    (haddr : ∀ b : Bytes, b.length = 20 → E.BytesToAddress b = b) :
    (p.PubData.length = (SigAlg E).PublicKeyLength →
      ∃ pubBytes, (SigAlg E).SerializePublicKey p = .ok pubBytes ∧
        (SigAlg E).PublicKeyToAddress E p = .ok ((E.Keccak256 pubBytes).drop 12, none) ∧
        ((E.Keccak256 pubBytes).drop 12).length = 20) ∧
    (p.PubData.length ≠ (SigAlg E).PublicKeyLength →
      (SigAlg E).PublicKeyToAddress E p =
        .ok (List.replicate E.AddressLength 0, some .ErrInvalidPublicKeyLen)) := by
  constructor
  · intro hlen
    have hlen' : p.PubData.length = (SigAlg E).publicKeyLength := hlen
    have hser : (SigAlg E).SerializePublicKey p = .ok p.PubData := by
      simp [HybridSig.SerializePublicKey, HybridSig.exportPublicKey, hlen',
        makeCopy_of_length hlen']
    have hl := hkeccak p.PubData
    have h20 : ((E.Keccak256 p.PubData).drop 12).length = 20 := by
      rw [List.length_drop, hl]
    refine ⟨p.PubData, hser, ?_, h20⟩
    unfold HybridSig.PublicKeyToAddress
    rw [hser]
    have hs : slice (E.Keccak256 p.PubData) ((SigAlg E).publicKeyBytesIndexStart : Nat)
        ((E.Keccak256 p.PubData).length : Nat) = .ok ((E.Keccak256 p.PubData).drop 12) := by
      have h12 : (SigAlg E).publicKeyBytesIndexStart = 12 := rfl
      have hle : ((12 : Nat) : Int) ≤ ((E.Keccak256 p.PubData).length : Int) := by
        rw [hl]; decide
      rw [h12]
      simp only [slice, hle, le_refl, and_self, if_true, Int.toNat_ofNat, List.take_length,
        Int.ofNat_nonneg]
    simp only [hs, haddr _ h20]
  · intro hlen
    have hlen' : p.PubData.length ≠ (SigAlg E).publicKeyLength := hlen
    simp [HybridSig.PublicKeyToAddress, HybridSig.SerializePublicKey,
      HybridSig.exportPublicKey, hlen', zeroAddress]

/-- C15 at the public key of the small instance and at a key one byte too long. -/
theorem PublicKeyToAddress_spec_witness :
    (∃ pubBytes, (SigAlg demo).SerializePublicKey ⟨[8, 10]⟩ = .ok pubBytes ∧
      (SigAlg demo).PublicKeyToAddress demo ⟨[8, 10]⟩ =
        .ok ((demo.Keccak256 pubBytes).drop 12, none) ∧
      ((demo.Keccak256 pubBytes).drop 12).length = 20) ∧
    (SigAlg demo).PublicKeyToAddress demo ⟨[8, 10, 1]⟩ =
      .ok (List.replicate demo.AddressLength 0, some .ErrInvalidPublicKeyLen) :=
  ⟨(PublicKeyToAddress_spec demo ⟨[8, 10]⟩ (fun b => by simp [demo, demoHash])
      (fun b hb => by simp [demo, demoBytesToAddress, hb])).1 (by decide),
   (PublicKeyToAddress_spec demo ⟨[8, 10, 1]⟩ (fun b => by simp [demo, demoHash])
      (fun b hb => by simp [demo, demoBytesToAddress, hb])).2 (by decide)⟩

/-- C16 as stated fails: in the small instance (declared lengths 2 and 2) the marker 0 with
`r = 256` (two bytes) and `s = 65536` (three bytes, one more than `SignatureLength()`) is
accepted. -/
theorem ValidateSignatureValues_accepts_longer_s :
    ¬ (∀ (v : Byte) (r s : Nat) (flag : Bool),
        ((bigBytes r).length ≠ (SigAlg demo).PublicKeyLength ∨
          (bigBytes s).length ≠ (SigAlg demo).SignatureLength) →
        (SigAlg demo).ValidateSignatureValues v r s flag = false) := by
  intro h
  have := h 0 256 65536 true (by decide)
  revert this
  decide

/-- C16, amended: `ValidateSignatureValues` returns false whenever the byte length of `r`
differs from `PublicKeyLength()` or the byte length of `s` is below `SignatureLength()`. -/
theorem ValidateSignatureValues_rejects (osig : HybridSig) (v : Byte) (r s : Nat) (flag : Bool)
    (h : (bigBytes r).length ≠ osig.PublicKeyLength ∨
      (bigBytes s).length < osig.SignatureLength) :
    osig.ValidateSignatureValues v r s flag = false := by
  unfold HybridSig.ValidateSignatureValues
  rcases h with h | h
  · simp [h]
  · by_cases hr : (bigBytes r).length = osig.PublicKeyLength <;> simp [h, hr]

/-- C16, amended, in the small instance: a one-byte `s`. -/
theorem ValidateSignatureValues_rejects_witness :
    (SigAlg demo).ValidateSignatureValues 1 256 255 false = false :=
  ValidateSignatureValues_rejects (SigAlg demo) 1 256 255 false (by decide)

/-- C18: `HybridSig.Verify(pubKey, digest, combined)` is true if and only if the framer splits
`combined`, the embedded public key equals `pubKey`, and the primitive accepts the embedded
signature over `digest` under `pubKey`. Hence a block `Sign` produced under `priv1` is
rejected against every `pubKey` other than the public key of `priv1`, for every digest and
whatever the primitive answers (the framer giving back the key `Sign` framed). -/
theorem Verify_iff (E : Collaborators) (s : HybridSig) (pubKey digest combined : Bytes) :
    (s.Verify E pubKey digest combined = true ↔
      ∃ sig pk, E.ExtractTwoParts combined = .ok (sig, pk) ∧ pk = pubKey ∧
        E.primVerify digest sig pubKey = none) ∧
    (∀ (priv1 : PrivateKey) (d : Bytes),
      s.Sign E d priv1 = .ok combined →
      (∀ a, E.primSign priv1.PriData d = .ok a →
        E.ExtractTwoParts (E.CombineTwoParts a priv1.PublicKey.PubData) =
          .ok (a, priv1.PublicKey.PubData)) →
      pubKey ≠ priv1.PublicKey.PubData →
      s.Verify E pubKey digest combined = false) := by
  constructor
  · unfold HybridSig.Verify
    cases hx : E.ExtractTwoParts combined with
    | error e => simp
    | ok sp =>
      obtain ⟨sig0, pk0⟩ := sp
      by_cases hpk : pubKey = pk0
      · subst hpk
        cases hv : E.primVerify digest sig0 pubKey with
        | none =>
          simp only [hv, ne_eq, not_true_eq_false, if_false]
          exact ⟨fun _ => ⟨sig0, pubKey, rfl, rfl, hv⟩, fun _ => trivial⟩
        | some e =>
          simp only [hv, ne_eq, not_true_eq_false, if_false]
          constructor
          · intro h; cases h
          · rintro ⟨sig, pk, h1, h2, h3⟩
            injection h1 with h1
            injection h1 with h1 _
            subst h1
            rw [hv] at h3
            cases h3
      · have hpk' : ¬ pk0 = pubKey := fun h => hpk h.symm
        simp [hpk, hpk']
  · intro priv1 d hsign hext hne
    obtain ⟨_, _, a, hprim, hcomb⟩ := Sign_ok E s d priv1 combined hsign
    unfold HybridSig.Verify
    rw [hcomb, hext a hprim]
    simp [hne]

/-- C18 in the small instance: a block signed under `demoKey` verifies against its public key
and is rejected against another key. -/
theorem Verify_iff_witness :
    (∃ sig pk, demo.ExtractTwoParts (frameTwoParts 1 (demoTag [8, 10] [1]) [8, 10]) =
        .ok (sig, pk) ∧ pk = [8, 10] ∧ demo.primVerify [1] sig [8, 10] = none) ∧
    (SigAlg demo).Verify demo [8, 11] [1] (frameTwoParts 1 (demoTag [8, 10] [1]) [8, 10]) =
      false :=
  ⟨(Verify_iff demo (SigAlg demo) [8, 10] [1]
      (frameTwoParts 1 (demoTag [8, 10] [1]) [8, 10])).1.mp (by decide),
   (Verify_iff demo (SigAlg demo) [8, 11] [1]
      (frameTwoParts 1 (demoTag [8, 10] [1]) [8, 10])).2 demoKey [1] (by decide)
      (fun a ha => by
        injection ha with ha; subst ha
        simp [demo, demoKey, demoPub, demoTag, frameTwoParts, unframeTwoParts, lengthField,
          readLength, List.range, List.range.loop])
      (by decide)⟩

/-- C19: for a key pair returned by `GenerateKey` and a digest `d`, `Sign(d, priv)` succeeds
and `Verify(SerializePublicKey(priv.PublicKey), d, Sign(d, priv))` is true. Hypotheses on the
collaborators: the primitive signs `d` and accepts its own signature under the key pair, and
`ExtractTwoParts` undoes `CombineTwoParts` on what was signed. -/
theorem Verify_Sign (E : Collaborators) (s : HybridSig) (seed : Nat) (priv : PrivateKey)
    (d : Bytes)
    (hgen : s.GenerateKey E seed = .ok (.ok priv))
    (hprim : ∃ sigBytes, E.primSign priv.PriData d = .ok sigBytes ∧
      E.primVerify d sigBytes priv.PublicKey.PubData = none)
    (hextract : ∀ a, E.primSign priv.PriData d = .ok a →
      E.ExtractTwoParts (E.CombineTwoParts a priv.PublicKey.PubData) =
        .ok (a, priv.PublicKey.PubData)) :
    ∃ sig pub, s.Sign E d priv = .ok sig ∧ s.SerializePublicKey priv.PublicKey = .ok pub ∧
      s.Verify E pub d sig = true := by
  obtain ⟨_, hpri, hpub⟩ := GenerateKey_ok E s seed priv hgen
  obtain ⟨sigBytes, hs, hv⟩ := hprim
  have hser : s.SerializePublicKey priv.PublicKey = .ok priv.PublicKey.PubData := by
    simp [HybridSig.SerializePublicKey, HybridSig.exportPublicKey, hpub,
      makeCopy_of_length hpub]
  refine ⟨E.CombineTwoParts sigBytes priv.PublicKey.PubData, priv.PublicKey.PubData, ?_,
    hser, ?_⟩
  · unfold HybridSig.Sign
    rw [hser]
    simp [HybridSig.exportPrivateKey, hpri, makeCopy_of_length hpri, hs]
  · unfold HybridSig.Verify
    rw [hextract sigBytes hs]
    simp [hv]

/-- C19 at the key pair the small instance generates from the seed 2311 and a digest of 32
bytes. -/
theorem Verify_Sign_witness :
    ∃ sig pub, (SigAlg demo).Sign demo (List.replicate 32 1) demoKey = .ok sig ∧
      (SigAlg demo).SerializePublicKey demoKey.PublicKey = .ok pub ∧
      (SigAlg demo).Verify demo pub (List.replicate 32 1) sig = true :=
  Verify_Sign demo (SigAlg demo) 2311 demoKey (List.replicate 32 1) (by decide)
    ⟨demoTag [8, 10] (List.replicate 32 1), by decide, by decide⟩
    (fun a ha => by
      injection ha with ha; subst ha
      simp [demo, demoKey, demoPub, demoTag, frameTwoParts, unframeTwoParts, lengthField,
        readLength, List.range, List.range.loop])

/-- Within the range where no conversion wraps, time stamps below `2^63 - 62135596800`,
`Expired(ts)` is true exactly when the instant `ts` seconds after the epoch is earlier than
now; with the clock at `unix` seconds, `1 ≤ unix` and `unix + 3600` in that range,
`Expired(unix - 1)` is true and `Expired(unix + 3600)` is false. -/
theorem Expired_exact_in_range (unix : Int) (nsec : Nat) :
    (∀ ts : Nat, (ts : Int) < 2 ^ 63 - unixToInternal →
      (Expired (nowAt unix nsec) ts = true ↔
        ((ts : Int) < unix ∨ ((ts : Int) = unix ∧ 0 < nsec)))) ∧
    (1 ≤ unix → unix + 3600 < 2 ^ 63 - unixToInternal →
      Expired (nowAt unix nsec) (unix - 1).toNat = true ∧
      Expired (nowAt unix nsec) (unix + 3600).toNat = false) := by
  refine ⟨fun ts hts => Expired_of_range unix nsec ts hts, ?_⟩
  intro h1 h2
  have hu : unixToInternal = 62135596800 := rfl
  have c1 : (((unix - 1).toNat : Nat) : Int) = unix - 1 := Int.toNat_of_nonneg (by omega)
  have c2 : (((unix + 3600).toNat : Nat) : Int) = unix + 3600 :=
    Int.toNat_of_nonneg (by omega)
  constructor
  · rw [Expired_of_range unix nsec _ (by rw [c1]; omega), c1]
    left; omega
  · rw [Bool.eq_false_iff]
    intro hex
    rw [Expired_of_range unix nsec _ (by rw [c2]; omega), c2] at hex
    omega

/-- C20: the claim fails on the code. With the clock at 1700000000 seconds, `Expired` reports
the `uint64` time stamps `2^63` and `2^64 - 1` as expired, although neither instant is earlier
than now: `int64(ts)` wraps them to negative seconds. -/
theorem Expired_wraps_large_timestamp :
    Expired (nowAt 1700000000 0) (2 ^ 63) = true ∧
    Expired (nowAt 1700000000 0) (2 ^ 64 - 1) = true ∧
    ¬ (((2 ^ 63 : Nat) : Int) < 1700000000 ∨
      (((2 ^ 63 : Nat) : Int) = 1700000000 ∧ 0 < 0)) ∧
    wrapInt64 ((2 ^ 63 : Nat) : Int) = -(2 ^ 63) := by
  decide

/-- C21: for a public key of the declared length the identity computed by the routing layer,
`encodePubkey(key).id()`, equals the one computed by the wire layer, `EncodePubkey(key).ID()`,
and both are the hash of `SerializePublicKey(key)`, 32 bytes long (`Keccak256Hash` returning
the bytes of `Keccak256`, and those being 32). -/
theorem node_identity_agrees (E : Collaborators) (key : PublicKey)
    (hlen : key.PubData.length = (SigAlg E).PublicKeyLength)
    (hhash : ∀ b, E.Keccak256Hash b = E.Keccak256 b)
    (hkeccak : ∀ b, (E.Keccak256 b).length = 32) :
    ∃ ser, (SigAlg E).SerializePublicKey key = .ok ser ∧
      (encodePubkey E key).id E = (EncodePubkey E key).ID E ∧
      (EncodePubkey E key).ID E = E.Keccak256 ser ∧
      ((EncodePubkey E key).ID E).length = 32 := by
  have hlen' : key.PubData.length = (SigAlg E).publicKeyLength := hlen
  have h1 : encodePubkey E key = ⟨key.PubData⟩ := by
    simp [encodePubkey, HybridSig.EncodePublicKey, makeCopy_of_length hlen', makeCopy_length_self]
  have h2 := EncodePubkey_of_length E key hlen'
  refine ⟨key.PubData, SerializePublicKey_of_length _ _ hlen', ?_, ?_, ?_⟩
  · rw [h1, h2]; rfl
  · rw [h2]; exact hhash _
  · rw [h2]
    unfold Pubkey.ID
    rw [hhash]
    exact hkeccak _

/-- C21 at the public key of the small instance. -/
theorem node_identity_agrees_witness :
    ∃ ser, (SigAlg demo).SerializePublicKey ⟨[8, 10]⟩ = .ok ser ∧
      (encodePubkey demo ⟨[8, 10]⟩).id demo = (EncodePubkey demo ⟨[8, 10]⟩).ID demo ∧
      (EncodePubkey demo ⟨[8, 10]⟩).ID demo = demo.Keccak256 ser ∧
      ((EncodePubkey demo ⟨[8, 10]⟩).ID demo).length = 32 :=
  node_identity_agrees demo ⟨[8, 10]⟩ (by decide) (fun _ => rfl)
    (fun b => by simp [demo, demoHash])

/-- C23 as stated fails: in the small instance, whose framer adds one length field of
`LengthByteSize` bytes per part, a signature of three bytes (one more than
`SignatureLength()`) is combined without error into a blob of 7 bytes, not the 6 of
`SignatureWithPublicKeyLength()`. -/
theorem CombinePublicKeySignature_longer_signature :
    (∀ a b : Bytes, (demo.CombineTwoParts a b).length =
        a.length + b.length + 2 * demo.LengthByteSize) ∧
    ¬ (∀ (sig pub blob : Bytes),
        (SigAlg demo).CombinePublicKeySignature demo sig pub = .ok blob →
        blob.length = (SigAlg demo).SignatureWithPublicKeyLength) := by
  constructor
  · intro a b
    simp [demo, frameTwoParts, lengthField]
    omega
  · intro h
    have := h [1, 2, 3] [8, 10] _ rfl
    revert this
    decide

/-- C23, amended: when `CombinePublicKeySignature(sig, pub)` succeeds, the blob has length
`len(sig) + PublicKeyLength() + 2 * LengthByteSize`; this is at least
`SignatureWithPublicKeyLength() = SignatureLength() + PublicKeyLength() + 2 * LengthByteSize`
and equal to it exactly when `len(sig) = SignatureLength()` (the framer adding one length
field of `LengthByteSize` bytes per part). -/
theorem CombinePublicKeySignature_length (E : Collaborators) (sig pub blob : Bytes)
    (hok : (SigAlg E).CombinePublicKeySignature E sig pub = .ok blob)
    (hframe : ∀ a b : Bytes, (E.CombineTwoParts a b).length =
      a.length + b.length + 2 * E.LengthByteSize) :
    blob.length = sig.length + (SigAlg E).PublicKeyLength + 2 * E.LengthByteSize ∧
    (SigAlg E).SignatureWithPublicKeyLength =
      (SigAlg E).SignatureLength + (SigAlg E).PublicKeyLength + 2 * E.LengthByteSize ∧
    (SigAlg E).SignatureWithPublicKeyLength ≤ blob.length ∧
    (blob.length = (SigAlg E).SignatureWithPublicKeyLength ↔
      sig.length = (SigAlg E).SignatureLength) := by
  unfold HybridSig.CombinePublicKeySignature at hok
  split_ifs at hok with h1 h2
  injection hok with hok
  have hb : blob.length = sig.length + pub.length + 2 * E.LengthByteSize := by
    rw [← hok]; exact hframe sig pub
  have hw : (SigAlg E).SignatureWithPublicKeyLength =
      E.CRYPTO_PUBLICKEY_BYTES + E.CRYPTO_SIGNATURE_BYTES + E.LengthByteSize +
        E.LengthByteSize := rfl
  have hs : (SigAlg E).SignatureLength = E.CRYPTO_SIGNATURE_BYTES := rfl
  have hp : (SigAlg E).PublicKeyLength = E.CRYPTO_PUBLICKEY_BYTES := rfl
  have hs' : (SigAlg E).signatureLength = E.CRYPTO_SIGNATURE_BYTES := rfl
  have hp' : (SigAlg E).publicKeyLength = E.CRYPTO_PUBLICKEY_BYTES := rfl
  rw [hs'] at h1
  rw [hp'] at h2
  rw [hw, hs, hp, hb]
  refine ⟨by omega, by omega, by omega, by omega⟩

/-- C23, amended, in the small instance, at a signature of the declared length and at one a
byte longer. -/
theorem CombinePublicKeySignature_length_witness :
    (frameTwoParts 1 [1, 2] [8, 10]).length = 6 ∧
    ((frameTwoParts 1 [1, 2, 3] [8, 10]).length =
      ([1, 2, 3] : Bytes).length + (SigAlg demo).PublicKeyLength + 2 * demo.LengthByteSize ∧
    (SigAlg demo).SignatureWithPublicKeyLength =
      (SigAlg demo).SignatureLength + (SigAlg demo).PublicKeyLength + 2 * demo.LengthByteSize ∧
    (SigAlg demo).SignatureWithPublicKeyLength ≤ (frameTwoParts 1 [1, 2, 3] [8, 10]).length ∧
    ((frameTwoParts 1 [1, 2, 3] [8, 10]).length = (SigAlg demo).SignatureWithPublicKeyLength ↔
      ([1, 2, 3] : Bytes).length = (SigAlg demo).SignatureLength)) :=
  ⟨by decide,
   CombinePublicKeySignature_length demo [1, 2, 3] [8, 10] (frameTwoParts 1 [1, 2, 3] [8, 10])
    (by decide) (fun a b => by simp [demo, frameTwoParts, lengthField]; omega)⟩

/-- C24: `DecodePubkey(e)` returns an error when every byte of `e` is zero (the empty `e`
included) or when the length of `e` differs from `PublicKeyLength()`, and otherwise the
public key whose bytes are those of `e`; hence for a public key of the declared length that is
not all zero, `DecodePubkey(EncodePubkey(key))` returns `key`. -/
theorem DecodePubkey_spec (E : Collaborators) (e : Pubkey) :
    ((∀ x ∈ e.PubBytes, x = 0) → DecodePubkey E e = .error .allZeroPublicKey) ∧
    (¬ (∀ x ∈ e.PubBytes, x = 0) → e.PubBytes.length ≠ (SigAlg E).PublicKeyLength →
      DecodePubkey E e = .error .wrongSizePublicKeyData) ∧
    (¬ (∀ x ∈ e.PubBytes, x = 0) → e.PubBytes.length = (SigAlg E).PublicKeyLength →
      DecodePubkey E e = .ok ⟨e.PubBytes⟩) ∧
    (∀ key : PublicKey, key.PubData.length = (SigAlg E).PublicKeyLength →
      ¬ (∀ x ∈ key.PubData, x = 0) → DecodePubkey E (EncodePubkey E key) = .ok key) := by
  have hz := zeroCount_eq_length_iff e.PubBytes
  have key3 : ∀ b : Bytes, ¬ (∀ x ∈ b, x = 0) → b.length = (SigAlg E).PublicKeyLength →
      DecodePubkey E ⟨b⟩ = .ok ⟨b⟩ := by
    intro b hnz hlen
    have hlen' : b.length = (SigAlg E).publicKeyLength := hlen
    unfold DecodePubkey
    simp only [(zeroCount_eq_length_iff b).not.mpr hnz, if_false]
    simp [HybridSig.DecodePublicKey, hlen', makeCopy_of_length hlen']
  refine ⟨?_, ?_, ?_, ?_⟩
  · intro hall
    unfold DecodePubkey
    simp only [hz.mpr hall, if_true]
  · intro hnz hlen
    have hlen' : e.PubBytes.length ≠ (SigAlg E).publicKeyLength := hlen
    unfold DecodePubkey
    simp only [hz.not.mpr hnz, if_false]
    simp [HybridSig.DecodePublicKey, hlen']
  · intro hnz hlen
    exact key3 e.PubBytes hnz hlen
  · intro key hlen hnz
    rw [EncodePubkey_of_length E key hlen]
    exact key3 key.PubData hnz hlen

/-- C24 in the small instance: the empty key, the all-zero key, a key of the wrong length and
the round trip of the public key `[8, 10]`. -/
theorem DecodePubkey_spec_witness :
    DecodePubkey demo ⟨[]⟩ = .error .allZeroPublicKey ∧
    DecodePubkey demo ⟨[0, 0]⟩ = .error .allZeroPublicKey ∧
    DecodePubkey demo ⟨[8, 10, 1]⟩ = .error .wrongSizePublicKeyData ∧
    DecodePubkey demo (EncodePubkey demo ⟨[8, 10]⟩) = .ok ⟨[8, 10]⟩ :=
  ⟨(DecodePubkey_spec demo ⟨[]⟩).1 (by simp),
   (DecodePubkey_spec demo ⟨[0, 0]⟩).1 (by simp),
   (DecodePubkey_spec demo ⟨[8, 10, 1]⟩).2.1 (by simp) (by decide),
   (DecodePubkey_spec demo ⟨[8, 10]⟩).2.2.2 ⟨[8, 10]⟩ (by decide) (by simp)⟩

/-- C25: `unwrapNodes(wrapNodes(ns))` has the length of `ns` and the same element at every
index, in the same order, and every record made by `wrapNode` has `livenessChecks = 0`, the
zero `addedAt` time, and the descriptor it was given. -/
theorem unwrapNodes_wrapNodes {α : Type} (ns : List α) :
    (unwrapNodes (wrapNodes ns)).length = ns.length ∧
    (∀ i : Nat, (unwrapNodes (wrapNodes ns))[i]? = ns[i]?) ∧
    (∀ n : α, (wrapNode n).livenessChecks = 0 ∧ (wrapNode n).addedAt = ⟨0, 0⟩ ∧
      unwrapNode (wrapNode n) = n) ∧
    (∀ r ∈ wrapNodes ns, r.livenessChecks = 0 ∧ r.addedAt = ⟨0, 0⟩) := by
  have h : unwrapNodes (wrapNodes ns) = ns := by
    unfold unwrapNodes wrapNodes
    rw [List.map_map]
    exact List.map_id ns
  refine ⟨by rw [h], fun i => by rw [h], fun n => ⟨rfl, rfl, rfl⟩, ?_⟩
  intro r hr
  unfold wrapNodes at hr
  obtain ⟨n, _, hn⟩ := List.mem_map.mp hr
  subst hn
  exact ⟨rfl, rfl⟩

/-- C26: `ValidateSignatureValues(v, r, s, flag)` is true if and only if `v` is 0 or 1, the
number of base-256 digits of `r` (its minimal big-endian byte length) is `PublicKeyLength()`,
and that of `s` is at least `SignatureLength()`; the result is the same for both values of the
flag, and every other `v` gives false. -/
theorem ValidateSignatureValues_iff (osig : HybridSig) (v : Byte) (r s : Nat) (flag : Bool) :
    (osig.ValidateSignatureValues v r s flag = true ↔
      (v = 0 ∨ v = 1) ∧ (Nat.digits 256 r).length = osig.PublicKeyLength ∧
        osig.SignatureLength ≤ (Nat.digits 256 s).length) ∧
    osig.ValidateSignatureValues v r s flag = osig.ValidateSignatureValues v r s (!flag) ∧
    (¬ (v = 0 ∨ v = 1) → osig.ValidateSignatureValues v r s flag = false) := by
  unfold HybridSig.ValidateSignatureValues
  rw [bigBytes_length, bigBytes_length]
  refine ⟨?_, rfl, fun hv => by simp only [hv, if_false]⟩
  by_cases hv : v = 0 ∨ v = 1
  · by_cases hr : (Nat.digits 256 r).length = osig.PublicKeyLength
    · by_cases hs : (Nat.digits 256 s).length < osig.SignatureLength
      · simp [hv, hr, hs]
      · simp [hv, hr, hs, Nat.le_of_not_lt hs]
    · simp [hv, hr]
  · simp [hv]

/-- C22: with the key file given by its content, the framing stage of
`LoadPrivateKeyFromFile` (`readASCII`, the length test, `checkKeyFileEnd`) passes if and only
if the content has at least `2 * PrivateKeyLength()` bytes, the first `2 * PrivateKeyLength()`
are each at least `0x21`, and the remaining ones are at most 2, each a line feed or a carriage
return. Accepted content is hex-decoded and deserialized: the result is that of
`DeserializePrivateKey` on the decoding of those first bytes, or the decoding error. Every
other content gives one of the three load errors. -/
theorem LoadPrivateKeyFromFile_framing (E : Collaborators) (s : HybridSig) (file : Bytes) :
    ((∃ buf, s.keyFileFraming file = .ok buf) ↔
      (2 * s.PrivateKeyLength ≤ file.length ∧
        (∀ x ∈ file.take (2 * s.PrivateKeyLength), 33 ≤ x.val) ∧
        (file.drop (2 * s.PrivateKeyLength)).length ≤ 2 ∧
        ∀ x ∈ file.drop (2 * s.PrivateKeyLength), x = 10 ∨ x = 13)) ∧
    ((∃ buf, s.keyFileFraming file = .ok buf) →
      s.keyFileFraming file = .ok (file.take (2 * s.PrivateKeyLength)) ∧
      s.LoadPrivateKeyFromFile E file =
        (hexDecodeString (file.take (2 * s.PrivateKeyLength))).bind
          (s.DeserializePrivateKey E)) ∧
    ((¬ ∃ buf, s.keyFileFraming file = .ok buf) →
      ∃ e, s.LoadPrivateKeyFromFile E file = .error e ∧
        (e = .keyFileTooShort ∨ e = .keyFileTooLong ∨ ∃ b, e = .invalidCharacterAtEnd b)) := by
  have hN : 2 * s.PrivateKeyLength = s.privateKeyLength * 2 := Nat.mul_comm _ _
  rw [hN]
  rcases keyFileFraming_cases s file with ⟨h1, h2, h3, h4, hok⟩ | ⟨hno, e, herr, he⟩
  · refine ⟨⟨fun _ => ⟨h1, h2, h3, h4⟩, fun _ => ⟨_, hok⟩⟩, fun _ => ⟨hok, ?_⟩, ?_⟩
    · unfold HybridSig.LoadPrivateKeyFromFile HybridSig.HexToPrivateKey
      rw [hok]
      dsimp only
      cases hexDecodeString (file.take (s.privateKeyLength * 2)) <;> rfl
    · intro hnone
      exact absurd ⟨_, hok⟩ hnone
  · have hnone : ¬ ∃ buf, s.keyFileFraming file = .ok buf := by
      rintro ⟨buf, hb⟩
      rw [herr] at hb
      cases hb
    refine ⟨⟨fun h => absurd h hnone, fun h => absurd h hno⟩, fun h => absurd h hnone, ?_⟩
    intro _
    refine ⟨e, ?_, he⟩
    unfold HybridSig.LoadPrivateKeyFromFile
    rw [herr]

/-- C22 in the small instance (4 hexadecimal characters): the key file "0709" followed by CR
LF loads `demoKey`, and a third trailing line feed is a load error. -/
theorem LoadPrivateKeyFromFile_framing_witness :
    (SigAlg demo).LoadPrivateKeyFromFile demo [48, 55, 48, 57, 13, 10] = .ok demoKey ∧
    ((SigAlg demo).keyFileFraming [48, 55, 48, 57, 13, 10] =
        .ok (([48, 55, 48, 57, 13, 10] : Bytes).take (2 * (SigAlg demo).PrivateKeyLength)) ∧
      (SigAlg demo).LoadPrivateKeyFromFile demo [48, 55, 48, 57, 13, 10] =
        (hexDecodeString
          (([48, 55, 48, 57, 13, 10] : Bytes).take (2 * (SigAlg demo).PrivateKeyLength))).bind
          ((SigAlg demo).DeserializePrivateKey demo)) ∧
    ∃ e, (SigAlg demo).LoadPrivateKeyFromFile demo [48, 55, 48, 57, 10, 10, 10] = .error e ∧
      (e = .keyFileTooShort ∨ e = .keyFileTooLong ∨ ∃ b, e = .invalidCharacterAtEnd b) :=
  ⟨by decide,
   (LoadPrivateKeyFromFile_framing demo (SigAlg demo) [48, 55, 48, 57, 13, 10]).2.1
    ⟨[48, 55, 48, 57], by decide⟩,
   (LoadPrivateKeyFromFile_framing demo (SigAlg demo) [48, 55, 48, 57, 10, 10, 10]).2.2
    (by
      rintro ⟨buf, hb⟩
      have h : (SigAlg demo).keyFileFraming [48, 55, 48, 57, 10, 10, 10] =
          .error .keyFileTooLong := by decide
      rw [h] at hb
      cases hb)⟩

end DP
